import Mathlib

/-!
Verification of the proxy-server repository (Python sources under src/).

This file gives a shallow embedding, in Lean 4, of the parts of the code
that the specification's claims are about:

* `src/internal/scraper/scraper.py` — `scrape_proxies`, `scrape_user_agents`
  (network fetches are modelled as the list of per-source results; a `none`
  entry is a source whose download failed after all retries, a `some lines`
  entry is the split-into-lines body of a successful download);
* `src/internal/config/config.py` — `DEFAULT_USER_AGENTS`;
* `src/internal/config/sessions.py` — the session registry `PROXY_SESSIONS`;
* `src/internal/proxy/proxy.py` — `ProxyValidator._validate_session` and
  `_test_proxy_batch` (the outcome of one browser probe is modelled as a
  boolean test function);
* `src/internal/proxy/driver_pool.py` — `DriverPool.get_driver` /
  `return_driver` as a state machine over an explicit pool state, with the
  health of a Chrome process and the success of driver creation supplied as
  oracles;
* `src/api/server.py` — the three RPC handlers `FetchContent`,
  `GetRandomProxy`, `GetProxyStats`;
* `src/main.py` — one iteration of `reload_proxies_background`.

Python strings are modelled as `String`; the character-level operations
`str.strip` and `str.split` are embedded as executable functions on
`List Char` below.
-/

namespace ProxyServer

/-! ## Character-level string helpers (Python `str.strip`, `str.split`, `in`) -/

/-- The characters Python's `str.strip()` removes by default. -/
def isPythonSpace (c : Char) : Bool :=
  c == ' ' || c == '\t' || c == '\n' || c == '\x0d' || c == '\x0b' || c == '\x0c'

/-- Python `str.strip()`: drop leading and trailing whitespace. -/
def stripChars (l : List Char) : List Char :=
  ((l.dropWhile isPythonSpace).reverse.dropWhile isPythonSpace).reverse

/-- Python `str.split(sep)` for a one-character separator `c`. -/
def splitOnChar (c : Char) : List Char → List (List Char)
  | [] => [[]]
  | x :: xs =>
    let rest := splitOnChar c xs
    if x == c then [] :: rest
    else
      match rest with
      | [] => [[x]]
      | r :: rs => (x :: r) :: rs

/-- Python `sub in s` on strings: contiguous-substring containment. -/
def containsSubChars (sub l : List Char) : Bool :=
  decide (sub <:+: l)

/-- `splitOnChar` never returns an empty list of fields. -/
theorem splitOnChar_ne_nil (c : Char) (l : List Char) : splitOnChar c l ≠ [] := by
  cases l with
  | nil => simp [splitOnChar]
  | cons x xs =>
    simp only [splitOnChar]
    by_cases h : x == c
    · simp [h]
    · simp only [h]
      cases hr : splitOnChar c xs <;> simp

/-- A line that contains the separator splits into at least two fields. -/
theorem splitOnChar_length_of_mem (c : Char) (l : List Char)
    (h : c ∈ l) : 2 ≤ (splitOnChar c l).length := by
  induction l with
  | nil => simp at h
  | cons x xs ih =>
    simp only [splitOnChar]
    by_cases hx : x == c
    · simp only [hx, if_true, List.length_cons]
      have := List.length_pos.mpr (splitOnChar_ne_nil c xs)
      omega
    · have hx2 : (x == c) = false := by simp_all
      simp only [hx2, if_false]
      have hxs : c ∈ xs := by
        rcases List.mem_cons.mp h with hcx | hcx
        · exact absurd (beq_iff_eq.mpr hcx.symm) (by simp [hx2])
        · exact hcx
      have h2 := ih hxs
      cases hr : splitOnChar c xs with
      | nil => exact absurd hr (splitOnChar_ne_nil c xs)
      | cons r rs =>
        simp only [hr]
        simp [hr] at h2
        simpa using h2

/-- A non-empty pattern is only a substring of a non-empty string. -/
theorem ne_nil_of_containsSubChars (sub l : List Char) (hsub : sub ≠ [])
    (h : containsSubChars sub l = true) : l ≠ [] := by
  intro hl
  subst hl
  simp only [containsSubChars, decide_eq_true_eq] at h
  exact hsub (List.eq_nil_of_infix_nil h)

/-- Order-preserving deduplication, keeping the first occurrence of each
element — Python's `list(dict.fromkeys(xs))`. -/
def dedupKeepFirst : List String → List String
  | [] => []
  | x :: xs => x :: (dedupKeepFirst xs).filter (fun y => y != x)

theorem dedupKeepFirst_sublist (l : List String) :
    List.Sublist (dedupKeepFirst l) l := by
  induction l with
  | nil => simp [dedupKeepFirst]
  | cons x xs ih =>
    simp only [dedupKeepFirst]
    exact List.Sublist.cons₂ x (List.Sublist.trans (List.filter_sublist _) ih)

theorem dedupKeepFirst_nodup (l : List String) : (dedupKeepFirst l).Nodup := by
  induction l with
  | nil => simp [dedupKeepFirst]
  | cons x xs ih =>
    simp only [dedupKeepFirst]
    refine List.Nodup.cons ?_ (List.Nodup.filter _ ih)
    intro hmem
    have := List.of_mem_filter hmem
    simp at this

theorem mem_dedupKeepFirst (x : String) (l : List String) :
    x ∈ dedupKeepFirst l ↔ x ∈ l := by
  induction l with
  | nil => simp [dedupKeepFirst]
  | cons y ys ih =>
    simp only [dedupKeepFirst, List.mem_cons]
    constructor
    · rintro (rfl | hmem)
      · exact .inl rfl
      · exact .inr (ih.mp (List.mem_of_mem_filter hmem))
    · rintro (rfl | hmem)
      · exact .inl rfl
      · by_cases hx : x = y
        · exact .inl hx
        · refine .inr (List.mem_filter.mpr ⟨ih.mpr hmem, ?_⟩)
          simpa using hx

/-! ## scraper.py: `scrape_proxies`

`scrape_proxies` iterates over its source URLs; each successful download is
stripped and split into lines, every line is stripped, lines that are
non-empty and contain a `:` are parsed by joining the first two
`:`-separated fields, and the concatenation over all sources is
deduplicated keeping first occurrences (`list(dict.fromkeys(...))`). -/

/-- The per-line parsing step of `scrape_proxies` (src/internal/scraper/scraper.py,
lines 32-39): strip, require non-empty and containing `:`, split on `:`,
keep `parts[0]:parts[1]`. -/
def parseProxyLine (rawLine : String) : Option String :=
  let line := stripChars rawLine.toList
  if !line.isEmpty && line.contains ':' then
    match splitOnChar ':' line with
    | p0 :: p1 :: _ => some (String.mk p0 ++ ":" ++ String.mk p1)
    | _ => none
  else none

/-- One source's contribution: the parsed proxies of its lines, in order. -/
def sourceProxies (lines : List String) : List String :=
  lines.filterMap parseProxyLine

/-- `scrape_proxies` (src/internal/scraper/scraper.py, lines 11-53) over the
fetch results of its sources: failed sources are skipped, contributions are
concatenated in source order, and the result is deduplicated preserving
first-seen order. -/
def scrape_proxies (fetched : List (Option (List String))) : List String :=
  let allProxies := fetched.foldl
    (fun acc r =>
      match r with
      | some lines => acc ++ sourceProxies lines
      | none => acc) []
  dedupKeepFirst allProxies

/-- The claim's reading of the per-line parse: keep, for each non-empty line
containing a `:`, only the first two `:`-separated fields joined by `:`;
discard lines without a `:`. -/
def specProxyOfLine (rawLine : String) : Option String :=
  let line := stripChars rawLine.toList
  if !line.isEmpty && line.contains ':' then
    match (splitOnChar ':' line).take 2 with
    | [p0, p1] => some (String.mk p0 ++ ":" ++ String.mk p1)
    | _ => none
  else none

/-- The claim's reading of the whole operation. -/
def scrape_proxies_spec (fetched : List (Option (List String))) : List String :=
  let allProxies := fetched.foldl
    (fun acc r =>
      match r with
      | some lines => acc ++ lines.filterMap specProxyOfLine
      | none => acc) []
  dedupKeepFirst allProxies

/-- Both parses agree on a list that is known to split into two or more
fields: taking the head two fields equals taking the first two of `take 2`. -/
theorem parse_take_two (line : List Char) (h : ':' ∈ line) :
    (match splitOnChar ':' line with
     | p0 :: p1 :: _ => some (String.mk p0 ++ ":" ++ String.mk p1)
     | _ => none) =
    (match (splitOnChar ':' line).take 2 with
     | [p0, p1] => some (String.mk p0 ++ ":" ++ String.mk p1)
     | _ => none) := by
  have hlen := splitOnChar_length_of_mem ':' line h
  cases hs : splitOnChar ':' line with
  | nil => rw [hs] at hlen; simp at hlen
  | cons p0 ps =>
    cases ps with
    | nil => rw [hs] at hlen; simp at hlen
    | cons p1 rest => rfl

theorem parseProxyLine_eq_spec (rawLine : String) :
    parseProxyLine rawLine = specProxyOfLine rawLine := by
  simp only [parseProxyLine, specProxyOfLine]
  by_cases h : (!(stripChars rawLine.toList).isEmpty &&
      (stripChars rawLine.toList).contains ':') = true
  · rw [if_pos h, if_pos h]
    refine parse_take_two _ ?_
    have h2 := (Bool.and_eq_true _ _ |>.mp h).2
    simpa [List.contains] using h2
  · rw [if_neg h, if_neg h]

/-- Helper: a fold that appends one block per successful source equals the
flattened list of per-source blocks. -/
theorem foldAppendBlocks_eq (f : List String → List String)
    (fetched : List (Option (List String))) (acc : List String) :
    fetched.foldl
      (fun acc r =>
        match r with
        | some lines => acc ++ f lines
        | none => acc) acc =
    acc ++ (fetched.map
      (fun r =>
        match r with
        | some lines => f lines
        | none => [])).flatten := by
  induction fetched generalizing acc with
  | nil => simp
  | cons r rs ih =>
    cases r with
    | some lines => simp [List.foldl_cons, ih]
    | none => simp [List.foldl_cons, ih]

theorem scrape_proxies_eq_spec (fetched : List (Option (List String))) :
    scrape_proxies fetched = scrape_proxies_spec fetched := by
  simp only [scrape_proxies, scrape_proxies_spec, sourceProxies]
  rw [foldAppendBlocks_eq, foldAppendBlocks_eq]
  simp only [List.nil_append]
  congr 1
  refine congrArg _ (List.map_congr_left ?_)
  intro r _
  cases r with
  | some lines => exact List.filterMap_congr (fun x _ => parseProxyLine_eq_spec x)
  | none => rfl

/-- The concatenation, in source order, of all parsed endpoints before
deduplication. -/
def collectedProxies (fetched : List (Option (List String))) : List String :=
  (fetched.map
    (fun r =>
      match r with
      | some lines => sourceProxies lines
      | none => [])).flatten

theorem scrape_proxies_eq_dedup (fetched : List (Option (List String))) :
    scrape_proxies fetched = dedupKeepFirst (collectedProxies fetched) := by
  simp only [scrape_proxies, collectedProxies]
  rw [foldAppendBlocks_eq]
  simp

/-- C8: `scrape_proxies` parses each non-empty line containing a `:` by
keeping only the first two `:`-separated fields joined as `host:port`,
discards lines without a `:`, and returns the endpoints deduplicated
preserving first-seen order across all sources combined.  The first
conjunct is the refinement against the claim's own reading of the parse;
the rest characterises the deduplication: the result is duplicate-free, is
a subsequence of the concatenated parses (so first-seen order is
preserved), and has exactly the same members. -/
theorem scrape_proxies_matches_spec :
    ∀ (fetched : List (Option (List String))),
      scrape_proxies fetched = scrape_proxies_spec fetched
      ∧ (scrape_proxies fetched).Nodup
      ∧ List.Sublist (scrape_proxies fetched) (collectedProxies fetched)
      ∧ (∀ x, x ∈ scrape_proxies fetched ↔ x ∈ collectedProxies fetched) := by
  intro fetched
  refine ⟨scrape_proxies_eq_spec fetched, ?_, ?_, ?_⟩
  · rw [scrape_proxies_eq_dedup]
    exact dedupKeepFirst_nodup _
  · rw [scrape_proxies_eq_dedup]
    exact dedupKeepFirst_sublist _
  · intro x
    rw [scrape_proxies_eq_dedup]
    exact mem_dedupKeepFirst x _

/-! ## config.py and scraper.py: `scrape_user_agents`

`DEFAULT_USER_AGENTS` is copied verbatim from
`src/internal/config/config.py` (lines 25-28): it has exactly two entries. -/

def DEFAULT_USER_AGENTS : List String :=
  ["Mozilla/5.0 (Windows NT 10.0; Win64; x64) AppleWebKit/537.36",
   "Mozilla/5.0 (X11; Linux x86_64) AppleWebKit/537.36"]

/-- The mobile markers excluded by `scrape_user_agents`
(src/internal/scraper/scraper.py, line 78). -/
def mobileMarkers : List String := ["Android", "iPhone", "iPad", "Mobile"]

/-- The per-line filter of `scrape_user_agents` (scraper.py, lines 77-79),
applied to the stripped line: non-empty, no mobile marker, contains
`Mozilla/`. -/
def keepUserAgentLine (line : List Char) : Bool :=
  !line.isEmpty
    && !(mobileMarkers.any (fun m => containsSubChars m.toList line))
    && containsSubChars "Mozilla/".toList line

/-- One source's contribution: its stripped lines that pass the filter. -/
def sourceUserAgents (lines : List String) : List String :=
  (lines.map (fun l => stripChars l.toList)).filterMap
    (fun line => if keepUserAgentLine line then some (String.mk line) else none)

/-- `scrape_user_agents` (scraper.py, lines 55-104) over the per-source
fetch results (`none` = the source failed all three attempts): concatenate
per-source kept lines; if nothing was obtained, fall back to
`DEFAULT_USER_AGENTS`; deduplicate keeping first occurrences. -/
def scrape_user_agents (fetched : List (Option (List String))) : List String :=
  let allAgents := fetched.foldl
    (fun acc r =>
      match r with
      | some lines => acc ++ sourceUserAgents lines
      | none => acc) []
  let withDefault := if allAgents.isEmpty then DEFAULT_USER_AGENTS else allAgents
  dedupKeepFirst withDefault

/-- The claim's reading of the per-line filter: contains the substring
`Mozilla/` and none of `Android`, `iPhone`, `iPad`, `Mobile` (no explicit
non-emptiness condition). -/
def specUserAgentKeep (line : List Char) : Bool :=
  containsSubChars "Mozilla/".toList line
    && !(mobileMarkers.any (fun m => containsSubChars m.toList line))

theorem keepUserAgentLine_eq_spec (line : List Char) :
    keepUserAgentLine line = specUserAgentKeep line := by
  simp only [keepUserAgentLine, specUserAgentKeep]
  by_cases hmoz : containsSubChars "Mozilla/".toList line = true
  · have hne : line ≠ [] :=
      ne_nil_of_containsSubChars _ line (by simp) hmoz
    have hempty : line.isEmpty = false := by
      cases line with
      | nil => exact absurd rfl hne
      | cons a as => rfl
    rw [hmoz, hempty]
    simp [Bool.and_comm]
  · have hmoz2 : containsSubChars "Mozilla/".toList line = false := by
      simpa using hmoz
    rw [hmoz2]
    simp

/-- Helper: with every source failed, the accumulation loop yields `[]`. -/
theorem userAgentsFold_all_failed (fetched : List (Option (List String)))
    (hfail : ∀ r ∈ fetched, r = none) :
    fetched.foldl
      (fun acc r =>
        match r with
        | some lines => acc ++ sourceUserAgents lines
        | none => acc) [] = [] := by
  rw [foldAppendBlocks_eq]
  simp only [List.nil_append]
  rw [List.flatten_eq_nil_iff]
  intro l hl
  rcases List.mem_map.mp hl with ⟨r, hr, hrl⟩
  rw [hfail r hr] at hrl
  exact hrl.symm

/-- C5 (counterexample to the claim as stated): when every source fails,
`scrape_user_agents` returns the built-in default list, and that list has
two entries, not three. -/
theorem scrape_user_agents_default_count :
    scrape_user_agents [none, none] = DEFAULT_USER_AGENTS
    ∧ (scrape_user_agents [none, none]).length = 2
    ∧ (scrape_user_agents [none, none]).length ≠ 3 := by
  refine ⟨by decide, by decide, by decide⟩

/-- C5 (amended): `scrape_user_agents` keeps, from each fetched source,
exactly the stripped lines that contain `Mozilla/` and none of the mobile
markers (first conjunct: the code's line filter coincides with the claim's
predicate), deduplicates the result keeping first occurrences, and, when
every source fails, returns the built-in default list of TWO desktop user
agents. -/
theorem scrape_user_agents_matches_spec :
    (∀ line, keepUserAgentLine line = specUserAgentKeep line)
    ∧ (∀ fetched, (∀ r ∈ fetched, r = none) →
        scrape_user_agents fetched = DEFAULT_USER_AGENTS)
    ∧ DEFAULT_USER_AGENTS.length = 2
    ∧ (∀ fetched, (scrape_user_agents fetched).Nodup)
    ∧ (∀ fetched, ¬ (fetched.foldl
          (fun acc r =>
            match r with
            | some lines => acc ++ sourceUserAgents lines
            | none => acc) []).isEmpty = true →
        scrape_user_agents fetched =
          dedupKeepFirst
            ((fetched.map
              (fun r =>
                match r with
                | some lines => sourceUserAgents lines
                | none => [])).flatten)) := by
  refine ⟨keepUserAgentLine_eq_spec, ?_, by decide, ?_, ?_⟩
  · intro fetched hfail
    simp only [scrape_user_agents]
    rw [userAgentsFold_all_failed fetched hfail]
    decide
  · intro fetched
    simp only [scrape_user_agents]
    exact dedupKeepFirst_nodup _
  · intro fetched hne
    simp only [scrape_user_agents]
    rw [foldAppendBlocks_eq] at hne ⊢
    simp only [List.nil_append] at hne ⊢
    rw [if_neg hne]

/-- Witness for the amended C5 theorem at concrete inputs: one failing
source yields the two default desktop user agents, and a successful source
keeps exactly the matching lines. -/
theorem scrape_user_agents_matches_spec_witness :
    scrape_user_agents [none] = DEFAULT_USER_AGENTS
    ∧ scrape_user_agents
        [some ["Mozilla/5.0 (X11) Gecko", "Mozilla/5.0 (iPhone) Safari", "curl/8.0"]] =
      ["Mozilla/5.0 (X11) Gecko"] := by
  refine ⟨scrape_user_agents_matches_spec.2.1 [none] (by simp), ?_⟩
  have h := scrape_user_agents_matches_spec.2.2.2.2
      [some ["Mozilla/5.0 (X11) Gecko", "Mozilla/5.0 (iPhone) Safari", "curl/8.0"]]
      (by decide)
  rw [h]
  decide

/-! ## sessions.py: the session registry

`PROXY_SESSIONS` (src/internal/config/sessions.py, lines 16-30) has exactly
one key, `CoinMarketCap`; only the key set matters for the claims below. -/

def sessionNames : List String := ["CoinMarketCap"]

/-! ## server.py: `GetProxyStats` -/

/-- The wire reply of `GetProxyStats`. -/
structure StatsResponse where
  proxy_count_by_session : List (String × Nat)
  total_valid_proxies : Nat
deriving DecidableEq

/-- `GetProxyStats` (src/api/server.py, lines 244-268): one pass over
`self.valid_proxies` accumulating the per-session count and the running
total.  The dict is modelled as an association list in iteration order. -/
def GetProxyStats (valid_proxies : List (String × List String)) : StatsResponse :=
  let folded := valid_proxies.foldl
    (fun (acc : List (String × Nat) × Nat) e =>
      (acc.1 ++ [(e.1, e.2.length)], acc.2 + e.2.length))
    ([], 0)
  ⟨folded.1, folded.2⟩

theorem statsFold_eq (m : List (String × List String))
    (acc : List (String × Nat) × Nat) :
    m.foldl
      (fun (acc : List (String × Nat) × Nat) e =>
        (acc.1 ++ [(e.1, e.2.length)], acc.2 + e.2.length)) acc =
    (acc.1 ++ m.map (fun e => (e.1, e.2.length)),
     acc.2 + (m.map (fun e => e.2.length)).sum) := by
  induction m generalizing acc with
  | nil => simp
  | cons e es ih =>
    simp only [List.foldl_cons, ih, List.map_cons, List.sum_cons]
    simp [List.append_assoc, Nat.add_assoc]

theorem lookup_map_length (sess : String) (m : List (String × List String)) :
    List.lookup sess (m.map (fun e => (e.1, e.2.length))) =
      (List.lookup sess m).map (fun ps => ps.length) := by
  induction m with
  | nil => rfl
  | cons e es ih =>
    rcases e with ⟨k, v⟩
    simp only [List.map_cons, List.lookup]
    by_cases hk : sess == k
    · simp [hk]
    · have hk2 : (sess == k) = false := by simpa using hk
      simp [hk2, ih]

/-- C10: `GetProxyStats` returns a consistent snapshot — the per-session
counts are exactly the lengths of the map's per-session lists (in
iteration order and under lookup), and the returned total equals the sum
of the returned per-session counts. -/
theorem GetProxyStats_consistent :
    ∀ (m : List (String × List String)),
      (GetProxyStats m).proxy_count_by_session = m.map (fun e => (e.1, e.2.length))
      ∧ (GetProxyStats m).total_valid_proxies =
          ((GetProxyStats m).proxy_count_by_session.map (fun e => e.2)).sum
      ∧ (∀ sess ps, List.lookup sess m = some ps →
          List.lookup sess (GetProxyStats m).proxy_count_by_session = some ps.length) := by
  intro m
  have h := statsFold_eq m ([], 0)
  refine ⟨?_, ?_, ?_⟩
  · simp [GetProxyStats, h]
  · simp only [GetProxyStats, h, List.nil_append, List.map_map, Nat.zero_add]
    rfl
  · intro sess ps hlook
    simp only [GetProxyStats, h, List.nil_append]
    rw [lookup_map_length, hlook]
    rfl

/-- Witness for C10 at a concrete map. -/
theorem GetProxyStats_consistent_witness :
    (GetProxyStats [("CoinMarketCap", ["1.1.1.1:80", "2.2.2.2:81"])]).total_valid_proxies =
      (((GetProxyStats [("CoinMarketCap", ["1.1.1.1:80", "2.2.2.2:81"])]).proxy_count_by_session).map
        (fun e => e.2)).sum
    ∧ List.lookup "CoinMarketCap"
        (GetProxyStats [("CoinMarketCap", ["1.1.1.1:80", "2.2.2.2:81"])]).proxy_count_by_session =
      some 2 := by
  have h := GetProxyStats_consistent [("CoinMarketCap", ["1.1.1.1:80", "2.2.2.2:81"])]
  exact ⟨h.2.1, h.2.2 "CoinMarketCap" ["1.1.1.1:80", "2.2.2.2:81"] (by decide)⟩

/-! ## server.py: `GetRandomProxy` -/

/-- The observable outcome of a `GetRandomProxy` call: either the handler
aborts with `INVALID_ARGUMENT`, or it returns a `ProxyResponse`. -/
inductive RandomProxyOutcome where
  | invalidArgument (details : String)
  | reply (proxy : String) (success : Bool) (message : String)
deriving DecidableEq

/-- `GetRandomProxy` (src/api/server.py, lines 206-242).  `random.choice`
is modelled by the index `pick % proxies.length` into the session's list,
so every list position is reachable by some `pick`. -/
def GetRandomProxy (reqSession : String)
    (valid_proxies : List (String × List String)) (pick : Nat) : RandomProxyOutcome :=
  if reqSession = "" then
    .invalidArgument "La sesión no puede estar vacía"
  else if !(sessionNames.contains reqSession) then
    .reply "" false ("Sesión \x27" ++ reqSession ++ "\x27 no encontrada en configuración")
  else
    let proxies := (List.lookup reqSession valid_proxies).getD []
    if proxies.isEmpty then
      .reply "" false
        ("No hay proxies válidos disponibles para la sesión \x27" ++ reqSession ++ "\x27")
    else
      .reply (proxies.getD (pick % proxies.length) "") true
        ("Proxy seleccionado exitosamente para la sesión \x27" ++ reqSession ++ "\x27")

theorem unknown_session_msg_contains (s : String) :
    containsSubChars "no encontrada".toList
      ("Sesión \x27" ++ s ++ "\x27 no encontrada en configuración").toList = true := by
  simp only [containsSubChars, decide_eq_true_eq, String.toList]
  have hb : "\x27 no encontrada en configuración".data =
      "\x27 ".data ++ "no encontrada".data ++ " en configuración".data := by decide
  refine ⟨"Sesión \x27".data ++ s.data ++ "\x27 ".data, " en configuración".data, ?_⟩
  rw [String.data_append, String.data_append, hb]
  simp [List.append_assoc]

/-- C9: behaviour of `GetRandomProxy` in its four cases — empty session
name aborts with `INVALID_ARGUMENT`; an unknown session returns
`success = false`, `proxy = ""` with a message containing `no encontrada`;
a known session with no valid proxies returns `success = false`; a known
session with proxies returns `success = true` and, for every index `i`
into the list, the pick `i` returns exactly the list's `i`-th proxy (the
random choice is a uniformly chosen index). -/
theorem GetRandomProxy_behavior :
    (∀ m pick, GetRandomProxy "" m pick =
        .invalidArgument "La sesión no puede estar vacía")
    ∧ (∀ s m pick, s ≠ "" → sessionNames.contains s = false →
        GetRandomProxy s m pick =
          .reply "" false ("Sesión \x27" ++ s ++ "\x27 no encontrada en configuración")
        ∧ containsSubChars "no encontrada".toList
            ("Sesión \x27" ++ s ++ "\x27 no encontrada en configuración").toList = true)
    ∧ (∀ s m pick, sessionNames.contains s = true →
        (List.lookup s m).getD [] = [] →
        GetRandomProxy s m pick =
          .reply "" false
            ("No hay proxies válidos disponibles para la sesión \x27" ++ s ++ "\x27"))
    ∧ (∀ s m ps i, sessionNames.contains s = true →
        List.lookup s m = some ps → (h : i < ps.length) →
        GetRandomProxy s m i =
          .reply (ps.get ⟨i, h⟩) true
            ("Proxy seleccionado exitosamente para la sesión \x27" ++ s ++ "\x27")) := by
  refine ⟨?_, ?_, ?_, ?_⟩
  · intro m pick
    simp [GetRandomProxy]
  · intro s m pick hne hnc
    refine ⟨?_, unknown_session_msg_contains s⟩
    rw [GetRandomProxy, if_neg hne]
    rw [hnc]
    rfl
  · intro s m pick hc hempty
    have hne : s ≠ "" := by
      intro h
      rw [h] at hc
      simp [sessionNames] at hc
    rw [GetRandomProxy, if_neg hne]
    rw [hc]
    simp only [Bool.not_true, if_false, hempty]
    rfl
  · intro s m ps i hc hlook h
    have hne : s ≠ "" := by
      intro hh
      rw [hh] at hc
      simp [sessionNames] at hc
    have hemp : ps.isEmpty = false := by
      cases ps with
      | nil => simp at h
      | cons a as => rfl
    rw [GetRandomProxy, if_neg hne, hc]
    simp only [Bool.not_true, if_false, hlook, Option.getD_some, hemp,
      Bool.false_eq_true, Nat.mod_eq_of_lt h, List.getD_eq_getElem ps "" h]
    simp [List.get_eq_getElem]

/-- Witness for C9 at concrete inputs: one application of each case. -/
theorem GetRandomProxy_behavior_witness :
    GetRandomProxy "" [] 0 = .invalidArgument "La sesión no puede estar vacía"
    ∧ GetRandomProxy "Nope" [] 0 =
        .reply "" false "Sesión \x27Nope\x27 no encontrada en configuración"
    ∧ GetRandomProxy "CoinMarketCap" [] 0 =
        .reply "" false "No hay proxies válidos disponibles para la sesión \x27CoinMarketCap\x27"
    ∧ GetRandomProxy "CoinMarketCap" [("CoinMarketCap", ["1.1.1.1:80", "2.2.2.2:81"])] 1 =
        .reply "2.2.2.2:81" true
          "Proxy seleccionado exitosamente para la sesión \x27CoinMarketCap\x27" := by
  refine ⟨GetRandomProxy_behavior.1 [] 0, ?_, ?_, ?_⟩
  · exact (GetRandomProxy_behavior.2.1 "Nope" [] 0 (by decide) (by decide)).1
  · exact GetRandomProxy_behavior.2.2.1 "CoinMarketCap" [] 0 (by decide) (by decide)
  · exact GetRandomProxy_behavior.2.2.2 "CoinMarketCap"
      [("CoinMarketCap", ["1.1.1.1:80", "2.2.2.2:81"])] ["1.1.1.1:80", "2.2.2.2:81"] 1
      (by decide) (by decide) (by decide)

/-! ## main.py: one iteration of `reload_proxies_background`

The refresh scheduler (src/main.py, lines 31-56) owns its own
`ProxyValidator`.  Its loop body sleeps, computes
`new_proxy_map = proxy_validator.get_valid_proxies()`, logs
`total_proxies = sum(len(proxies) ...)`, logs pool stats and closes the
validator pool.  It never assigns the computed map to
`current_servicer.valid_proxies` (which is set once, in
`ProxyServicer._initialize`, src/api/server.py lines 33-38), so the map
visible to RPC readers is returned unchanged. -/

def mapTotal (m : List (String × List String)) : Nat :=
  (m.map (fun e => e.2.length)).sum

/-- One iteration of the `reload_proxies_background` loop, as a function of
the validation round's result and of the servicer-visible map: it returns
the servicer-visible map after the iteration together with the logged
total of the computed (and then discarded) round result. -/
def reload_proxies_iteration (newProxyMap : List (String × List String))
    (servicerMap : List (String × List String)) :
    (List (String × List String)) × Nat :=
  (servicerMap, mapTotal newProxyMap)

/-- C2 (the code contradicts the claim): a refresh round never changes the
map visible to RPC readers.  Concretely, starting from an empty startup
map, a round that found one proxy for `CoinMarketCap` leaves
`GetProxyStats` reporting the startup counts, although the round's own
counts differ. -/
theorem reload_round_not_published :
    (∀ newProxyMap servicerMap,
      (reload_proxies_iteration newProxyMap servicerMap).1 = servicerMap)
    ∧ GetProxyStats
        (reload_proxies_iteration [("CoinMarketCap", ["1.2.3.4:8080"])]
          [("CoinMarketCap", [])]).1 =
      GetProxyStats [("CoinMarketCap", [])]
    ∧ GetProxyStats [("CoinMarketCap", ["1.2.3.4:8080"])] ≠
      GetProxyStats [("CoinMarketCap", [])] := by
  exact ⟨fun _ _ => rfl, by decide, by decide⟩

/-! ## server.py: `FetchContent`

`FetchContent` (src/api/server.py, lines 140-204) validates the session,
then walks a fallback ladder.  The two fetch primitives
`_fetch_with_selenium` and `_fetch_with_requests` perform network and
browser I/O; they are modelled as oracles mapping the proxy argument
(`none` = direct) to either content or a raised error message. -/

/-- The observable outcome of a `FetchContent` call. -/
inductive FetchOutcome where
  | ok (content : String)
  | invalidArgument (details : String)
  | internal (details : String)
deriving DecidableEq

/-- `FetchContent`: step A is proxy+browser, step B proxy+plain-HTTP, step
C direct+browser, step D direct+plain-HTTP.  Steps A and B run only when
`request.proxy` is set, the session is a key of `valid_proxies` and its
list is non-empty; both their failures are swallowed.  A failure of step C
is swallowed; an error raised by step D escapes to the handler's outer
`except`, which returns `INTERNAL` with that error's message. -/
def FetchContent (reqSession : String) (reqProxy : Bool)
    (valid_proxies : List (String × List String))
    (pick : List String → String)
    (fetchSelenium fetchRequests : Option String → Except String String) :
    FetchOutcome :=
  if reqSession = "" || !(sessionNames.contains reqSession) then
    .invalidArgument "Sesión inválida"
  else
    let direct : FetchOutcome :=
      match fetchSelenium none with
      | .ok content => .ok content
      | .error _ =>
        match fetchRequests none with
        | .ok content => .ok content
        | .error e => .internal e
    match (if reqProxy then List.lookup reqSession valid_proxies else none) with
    | some proxies =>
      if proxies.isEmpty then direct
      else
        let proxyAddr := pick proxies
        match fetchSelenium (some proxyAddr) with
        | .ok content => .ok content
        | .error _ =>
          match fetchRequests (some proxyAddr) with
          | .ok content => .ok content
          | .error _ => direct
    | none => direct

/-- C3: the fallback ladder of `FetchContent` runs strictly in the order
A (proxy + browser), B (same proxy + plain HTTP), C (direct + browser),
D (direct + plain HTTP), stops at the first success and returns that
step's bytes — in particular a success at step A makes the result
independent of the remaining oracles — and when all applicable steps fail
the RPC returns `Internal` carrying the last (step D's) error message. -/
theorem FetchContent_ladder :
    ∀ (s : String) (m : List (String × List String)) (ps : List String)
      (pick : List String → String)
      (selA reqB selC reqD : String),
      sessionNames.contains s = true →
      List.lookup s m = some ps → ps ≠ [] →
      (∀ fetchSelenium fetchRequests : Option String → Except String String,
        fetchSelenium (some (pick ps)) = .ok selA →
        FetchContent s true m pick fetchSelenium fetchRequests = .ok selA)
      ∧ (∀ fetchSelenium fetchRequests : Option String → Except String String,
          (∃ e, fetchSelenium (some (pick ps)) = .error e) →
          fetchRequests (some (pick ps)) = .ok reqB →
          FetchContent s true m pick fetchSelenium fetchRequests = .ok reqB)
      ∧ (∀ fetchSelenium fetchRequests : Option String → Except String String,
          (∃ e, fetchSelenium (some (pick ps)) = .error e) →
          (∃ e, fetchRequests (some (pick ps)) = .error e) →
          fetchSelenium none = .ok selC →
          FetchContent s true m pick fetchSelenium fetchRequests = .ok selC)
      ∧ (∀ fetchSelenium fetchRequests : Option String → Except String String,
          (∃ e, fetchSelenium (some (pick ps)) = .error e) →
          (∃ e, fetchRequests (some (pick ps)) = .error e) →
          (∃ e, fetchSelenium none = .error e) →
          fetchRequests none = .error reqD →
          FetchContent s true m pick fetchSelenium fetchRequests = .internal reqD)
      ∧ (∀ fetchSelenium fetchRequests : Option String → Except String String,
          fetchSelenium none = .ok selC →
          FetchContent s false m pick fetchSelenium fetchRequests = .ok selC) := by
  intro s m ps pick selA reqB selC reqD hc hlook hne
  have hs : (s = "" || !(sessionNames.contains s)) = false := by
    rw [hc]
    have : (s = "") = False := by
      simp only [eq_iff_iff, iff_false]
      intro h
      rw [h] at hc
      simp [sessionNames] at hc
    simp [this]
  have hemp : ps.isEmpty = false := by
    cases ps with
    | nil => exact absurd rfl hne
    | cons a as => rfl
  refine ⟨?_, ?_, ?_, ?_, ?_⟩
  · intro fS fR hA
    rw [FetchContent, if_neg (by simp_all)]
    simp only [if_true, hlook, hemp, Bool.false_eq_true, if_false, hA]
  · rintro fS fR ⟨eA, hA⟩ hB
    rw [FetchContent, if_neg (by simp_all)]
    simp only [if_true, hlook, hemp, Bool.false_eq_true, if_false, hA, hB]
  · rintro fS fR ⟨eA, hA⟩ ⟨eB, hB⟩ hC
    rw [FetchContent, if_neg (by simp_all)]
    simp only [if_true, hlook, hemp, Bool.false_eq_true, if_false, hA, hB, hC]
  · rintro fS fR ⟨eA, hA⟩ ⟨eB, hB⟩ ⟨eC, hC⟩ hD
    rw [FetchContent, if_neg (by simp_all)]
    simp only [if_true, hlook, hemp, Bool.false_eq_true, if_false, hA, hB, hC, hD]
  · intro fS fR hC
    rw [FetchContent, if_neg (by simp_all)]
    simp [hC]

/-- Witness for C3 at concrete oracles: step A short-circuits; the
all-fail run surfaces step D's error message. -/
theorem FetchContent_ladder_witness :
    FetchContent "CoinMarketCap" true [("CoinMarketCap", ["9.9.9.9:3128"])]
      (fun ps => ps.getD 0 "")
      (fun _ => .ok "bytes-A") (fun _ => .error "unused") = .ok "bytes-A"
    ∧ FetchContent "CoinMarketCap" true [("CoinMarketCap", ["9.9.9.9:3128"])]
        (fun ps => ps.getD 0 "")
        (fun _ => .error "selenium down") (fun _ => .error "requests down") =
      .internal "requests down" := by
  have h := FetchContent_ladder "CoinMarketCap" [("CoinMarketCap", ["9.9.9.9:3128"])]
    ["9.9.9.9:3128"] (fun ps => ps.getD 0 "") "bytes-A" "" "" "requests down"
    (by decide) (by decide) (by decide)
  refine ⟨h.1 _ _ rfl, ?_⟩
  exact h.2.2.2.1 _ _ ⟨"selenium down", rfl⟩ ⟨"requests down", rfl⟩
    ⟨"selenium down", rfl⟩ rfl

/-! ## proxy.py: `ProxyValidator._validate_session`

`_validate_session` (src/internal/proxy/proxy.py, lines 161-186) splits
the candidate list into `proxies[i:i+5]` batches, runs
`_test_proxy_batch` on each batch in order, extends the accumulator with
the batch's successes, breaks once the accumulator holds 20 or more, and
returns `all_valid[:20]`.  `_test_proxy_batch` (lines 80-112) first drops
candidates already in `self.failed_proxies`, probes the rest (the probe
outcome is modelled by the boolean `test`), and adds the failures to
`failed_proxies`. -/

/-- Fuel-indexed chunking; with fuel `l.length` this is Python's
`[l[i:i+5] for i in range(0, len(l), 5)]`. -/
def chunkGo (fuel : Nat) (l : List String) : List (List String) :=
  match fuel, l with
  | 0, _ => []
  | _ + 1, [] => []
  | fuel + 1, x :: xs => ((x :: xs).take 5) :: chunkGo fuel ((x :: xs).drop 5)

/-- The batches of size 5 over which `_validate_session` iterates. -/
def batchesOf (proxies : List String) : List (List String) :=
  chunkGo proxies.length proxies

theorem chunkGo_flatten (fuel : Nat) (l : List String) (hfuel : l.length ≤ fuel) :
    (chunkGo fuel l).flatten = l := by
  induction fuel generalizing l with
  | zero =>
    cases l with
    | nil => rfl
    | cons x xs => simp at hfuel
  | succ fuel ih =>
    cases l with
    | nil => rfl
    | cons x xs =>
      simp only [chunkGo, List.flatten_cons]
      simp only [List.length_cons] at hfuel
      rw [ih ((x :: xs).drop 5)
        (by simp only [List.length_drop, List.length_cons]; omega)]
      exact List.take_append_drop 5 (x :: xs)

theorem chunkGo_mem (fuel : Nat) (l : List String) (b : List String)
    (hb : b ∈ chunkGo fuel l) : b.length ≤ 5 ∧ b ≠ [] := by
  induction fuel generalizing l with
  | zero => simp [chunkGo] at hb
  | succ fuel ih =>
    cases l with
    | nil => simp [chunkGo] at hb
    | cons x xs =>
      simp only [chunkGo, List.mem_cons] at hb
      rcases hb with rfl | hb
      · constructor
        · simp
        · simp
      · exact ih _ hb

/-- `_test_proxy_batch`: first component is the batch's validated proxies
(in probe order), second is the updated failed set. -/
def test_proxy_batch (test : String → Bool) (failed : List String)
    (batch : List String) : List String × List String :=
  let fresh := batch.filter (fun p => !(failed.contains p))
  (fresh.filter test, failed ++ fresh.filter (fun p => !(test p)))

/-- The batch loop of `_validate_session`: extend the accumulator with
each batch's successes, break once it reaches 20, return `all_valid[:20]`. -/
def validateGo (test : String → Bool) :
    List (List String) → List String → List String → List String
  | [], allValid, _ => allValid.take 20
  | b :: bs, allValid, failed =>
    let r := test_proxy_batch test failed b
    let allValid2 := allValid ++ r.1
    if 20 ≤ allValid2.length then allValid2.take 20
    else validateGo test bs allValid2 r.2

/-- `_validate_session` over an abstract probe outcome `test` and the
validator's current failed set. -/
def validate_session (test : String → Bool) (failed : List String)
    (proxies : List String) : List String :=
  validateGo test (batchesOf proxies) [] failed

theorem validateGo_length (test : String → Bool) (bs : List (List String))
    (allValid failed : List String) :
    (validateGo test bs allValid failed).length ≤ 20 := by
  induction bs generalizing allValid failed with
  | nil =>
    simp only [validateGo, List.length_take]
    omega
  | cons b bs ih =>
    simp only [validateGo]
    by_cases h : 20 ≤ (allValid ++ (test_proxy_batch test failed b).1).length
    · rw [if_pos h]
      simp only [List.length_take]
      omega
    · rw [if_neg h]
      exact ih _ _

/-- C6: per-session validation processes the candidates in fixed-size
batches of 5 in order (the batches are non-empty, at most 5 long, and
concatenate back to the whole candidate list), stops processing further
batches as soon as the accumulator has reached 20 entries (the loop's
result is then `accumulator[:20]`, independent of the remaining batches),
and always returns at most 20 endpoints — so every `ValidProxyMap` entry
has length at most 20. -/
theorem validate_session_quota :
    ∀ (test : String → Bool) (failed proxies : List String),
      (validate_session test failed proxies).length ≤ 20
      ∧ (batchesOf proxies).flatten = proxies
      ∧ (∀ b ∈ batchesOf proxies, b.length ≤ 5 ∧ b ≠ [])
      ∧ (∀ bs allValid failed2 b,
          20 ≤ (allValid ++ (test_proxy_batch test failed2 b).1).length →
          validateGo test (b :: bs) allValid failed2 =
            (allValid ++ (test_proxy_batch test failed2 b).1).take 20) := by
  intro test failed proxies
  refine ⟨validateGo_length test _ [] failed,
    chunkGo_flatten proxies.length proxies (Nat.le_refl _),
    fun b hb => chunkGo_mem proxies.length proxies b hb,
    fun bs allValid failed2 b h => ?_⟩
  simp only [validateGo]
  rw [if_pos h]

/-- Witness for C6 at concrete inputs: a two-candidate list stays within
quota, and a loop whose accumulator reaches 20 stops with the truncated
accumulator regardless of the remaining batches. -/
theorem validate_session_quota_witness :
    (validate_session (fun _ => true) [] ["1.1.1.1:80", "2.2.2.2:81"]).length ≤ 20
    ∧ validateGo (fun _ => true) [["3.3.3.3:82"]] (List.replicate 20 "x") [] =
        (List.replicate 20 "x" ++
          (test_proxy_batch (fun _ => true) [] ["3.3.3.3:82"]).1).take 20 := by
  have h := validate_session_quota (fun _ => true) [] ["1.1.1.1:80", "2.2.2.2:81"]
  exact ⟨h.1, h.2.2.2 [] (List.replicate 20 "x") [] ["3.3.3.3:82"] (by decide)⟩

/-! ## driver_pool.py: the `DriverPool` state machine

`DriverPool` (src/internal/proxy/driver_pool.py) keeps a FIFO queue
`available_drivers` of idle `DriverInstance`s and a dict `active_drivers`
of checked-out ones.  A `DriverInstance` is a mutable slot holding a
reference to a Chrome process (`self.driver`) plus `current_proxy`,
`error_count` and `in_use`.  In the model each Chrome process gets a
fresh `driverId` at launch; `driverLog` records the proxy each process is
launched with (the `--proxy-server` argument is fixed at construction:
the source comments that Chrome cannot change proxy at runtime, so
`_reconfigure_driver_proxy` quits the process and launches a new one);
`destroyed` records the ids of quit processes.  `instId` identifies the
`DriverInstance` slot (Python `id(driver_instance)`).  Whether a Chrome
process still answers `driver.current_url` and whether launching a new
process succeeds are external facts, passed in as the oracles `healthy`
and `createOk`.  Wall-clock time (`last_used`) plays no role in the
claims and is omitted. -/

structure DriverInst where
  instId : Nat
  driverId : Nat
  currentProxy : Option String
  errorCount : Nat
  inUse : Bool
deriving DecidableEq

structure PoolState where
  maxDrivers : Nat
  available : List DriverInst
  active : List DriverInst
  nextInstId : Nat
  nextDriverId : Nat
  driverLog : List (Nat × Option String)
  destroyed : List Nat
deriving DecidableEq

/-- A fresh pool (`DriverPool.__init__`). -/
def mkPool (maxDrivers : Nat) : PoolState :=
  ⟨maxDrivers, [], [], 0, 0, [], []⟩

/-- `_can_reuse_driver` (driver_pool.py, lines 87-90). -/
def canReuse (inst : DriverInst) (targetProxy : Option String) : Bool :=
  inst.currentProxy == targetProxy && inst.errorCount < 3

/-- The scan loop of `get_driver` (driver_pool.py, lines 117-146): drain
the available queue; a dead instance (failed `current_url` read) is quit;
the first live instance satisfying `_can_reuse_driver` is kept as
`best_match` (the rest of the queue is left in place); live non-matching
instances go to `temp_queue`.  Afterwards the queue is the unscanned
remainder followed by the temp queue. -/
structure ScanResult where
  best : Option DriverInst
  remaining : List DriverInst
  temp : List DriverInst
  dead : List DriverInst
deriving DecidableEq

def scanAvailable (healthy : Nat → Bool) (targetProxy : Option String) :
    List DriverInst → ScanResult
  | [] => ⟨none, [], [], []⟩
  | inst :: rest =>
    if healthy inst.driverId then
      if canReuse inst targetProxy then ⟨some inst, rest, [], []⟩
      else
        let r := scanAvailable healthy targetProxy rest
        ⟨r.best, r.remaining, inst :: r.temp, r.dead⟩
    else
      let r := scanAvailable healthy targetProxy rest
      ⟨r.best, r.remaining, r.temp, inst :: r.dead⟩

/-- The creation tail of `get_driver` (lines 176-189): if
`len(active_drivers) < max_drivers`, launch a fresh driver bound to the
requested proxy and hand it out; otherwise (or if the launch fails)
return `None`. -/
def createNew (s : PoolState) (avail : List DriverInst) (destroyed : List Nat)
    (proxyAddr : Option String) (createOk : Bool) : PoolState × Option DriverInst :=
  if s.active.length < s.maxDrivers then
    if createOk then
      let inst : DriverInst := ⟨s.nextInstId, s.nextDriverId, proxyAddr, 0, true⟩
      ({ s with available := avail, destroyed := destroyed,
                active := inst :: s.active,
                nextInstId := s.nextInstId + 1,
                nextDriverId := s.nextDriverId + 1,
                driverLog := (s.nextDriverId, proxyAddr) :: s.driverLog }, some inst)
    else ({ s with available := avail, destroyed := destroyed }, none)
  else ({ s with available := avail, destroyed := destroyed }, none)

/-- `get_driver` (driver_pool.py, lines 113-189).  After the scan: a best
match is marked in-use and moved to `active_drivers`; otherwise, if the
queue is non-empty and the pool is at or over capacity, the front idle
instance is retargeted by `_reconfigure_driver_proxy` (lines 92-111: quit
the old Chrome process, launch a new one bound to the new proxy, reset
`error_count`; on launch failure the instance is discarded); otherwise
fall through to creation. -/
def get_driver (s : PoolState) (proxyAddr : Option String)
    (healthy : Nat → Bool) (createOk : Bool) : PoolState × Option DriverInst :=
  let r := scanAvailable healthy proxyAddr s.available
  let avail := r.remaining ++ r.temp
  let destroyed := r.dead.map (fun i => i.driverId) ++ s.destroyed
  match r.best with
  | some inst =>
    let inst := { inst with inUse := true }
    ({ s with available := avail, destroyed := destroyed,
              active := inst :: s.active }, some inst)
  | none =>
    match avail with
    | oldInst :: restAvail =>
      if s.maxDrivers ≤ s.active.length then
        if createOk then
          let newInst : DriverInst :=
            { oldInst with driverId := s.nextDriverId, currentProxy := proxyAddr,
                           errorCount := 0, inUse := true }
          ({ s with available := restAvail,
                    active := newInst :: s.active,
                    nextDriverId := s.nextDriverId + 1,
                    driverLog := (s.nextDriverId, proxyAddr) :: s.driverLog,
                    destroyed := oldInst.driverId :: destroyed }, some newInst)
        else
          ({ s with available := restAvail,
                    destroyed := oldInst.driverId :: destroyed }, none)
      else createNew s (oldInst :: restAvail) destroyed proxyAddr createOk
    | [] => createNew s [] destroyed proxyAddr createOk

/-- `return_driver` (driver_pool.py, lines 191-225): remove the instance
from `active_drivers`, clear `in_use`, bump `error_count` on error; at
three or more errors quit the driver and do not re-enqueue; otherwise
re-enqueue if the health probe passes, else quit.  Returning an instance
that is not checked out is modelled as a no-op. -/
def return_driver (s : PoolState) (instId : Nat) (hadError : Bool)
    (healthy : Nat → Bool) : PoolState :=
  match s.active.find? (fun i => i.instId == instId) with
  | none => s
  | some inst =>
    let active := s.active.filter (fun i => !(i.instId == instId))
    let errorCount := inst.errorCount + (if hadError then 1 else 0)
    let inst := { inst with inUse := false, errorCount := errorCount }
    if 3 ≤ errorCount then
      { s with active := active, destroyed := inst.driverId :: s.destroyed }
    else if healthy inst.driverId then
      { s with active := active, available := s.available ++ [inst] }
    else
      { s with active := active, destroyed := inst.driverId :: s.destroyed }

/-- One observable pool operation, with its oracles. -/
inductive PoolEvent where
  | acquire (proxyAddr : Option String) (healthy : Nat → Bool) (createOk : Bool)
  | release (instId : Nat) (hadError : Bool) (healthy : Nat → Bool)

def poolStep (s : PoolState) : PoolEvent → PoolState
  | .acquire p h c => (get_driver s p h c).1
  | .release i e h => return_driver s i e h

def poolRun (s : PoolState) : List PoolEvent → PoolState
  | [] => s
  | ev :: evs => poolRun (poolStep s ev) evs

theorem scanAvailable_length (h : Nat → Bool) (p : Option String)
    (l : List DriverInst) :
    (scanAvailable h p l).best.toList.length + (scanAvailable h p l).remaining.length
      + (scanAvailable h p l).temp.length + (scanAvailable h p l).dead.length
      = l.length := by
  induction l with
  | nil => rfl
  | cons inst rest ih =>
    simp only [scanAvailable]
    cases h1 : h inst.driverId <;> cases h2 : canReuse inst p <;>
      simp_all [Option.toList] <;> omega

/-- C1 (counterexample to the claim as stated): with `max_drivers = 1`,
acquire a driver for one proxy, release it, then acquire for a different
proxy.  `get_driver` only checks `len(active_drivers) < max_drivers`
before creating, so the pool ends with one in-use and one idle instance:
`|in_use| + |available| = 2 > 1 = max_size`. -/
theorem pool_capacity_counterexample :
    (mkPool 1).maxDrivers = 1
    ∧ (poolRun (mkPool 1)
        [.acquire (some "1.1.1.1:80") (fun _ => true) true,
         .release 0 false (fun _ => true),
         .acquire (some "2.2.2.2:81") (fun _ => true) true]).active.length
      + (poolRun (mkPool 1)
        [.acquire (some "1.1.1.1:80") (fun _ => true) true,
         .release 0 false (fun _ => true),
         .acquire (some "2.2.2.2:81") (fun _ => true) true]).available.length = 2 := by
  exact ⟨rfl, rfl⟩

theorem createNew_total (s : PoolState) (avail : List DriverInst)
    (destroyed : List Nat) (p : Option String) (c : Bool) :
    ((createNew s avail destroyed p c).1.active.length
        + (createNew s avail destroyed p c).1.available.length
      ≤ s.active.length + avail.length + 1)
    ∧ (s.active.length + avail.length <
        (createNew s avail destroyed p c).1.active.length
          + (createNew s avail destroyed p c).1.available.length →
        s.active.length < s.maxDrivers) := by
  unfold createNew
  by_cases h1 : s.active.length < s.maxDrivers
  · rw [if_pos h1]
    cases c
    · simp
    · simp only [if_true]
      constructor
      · simp only [List.length_cons]
        omega
      · intro _
        exact h1
  · rw [if_neg h1]
    simp

theorem get_driver_total (s : PoolState) (p : Option String) (h : Nat → Bool)
    (c : Bool) :
    ((get_driver s p h c).1.active.length + (get_driver s p h c).1.available.length
      ≤ s.active.length + s.available.length + 1)
    ∧ (s.active.length + s.available.length <
        (get_driver s p h c).1.active.length + (get_driver s p h c).1.available.length →
        s.active.length < s.maxDrivers) := by
  have hlen := scanAvailable_length h p s.available
  simp only [get_driver]
  split
  · -- best match found
    rename_i inst heq
    rw [heq] at hlen
    simp only [Option.toList_some, List.length_singleton] at hlen
    simp only [List.length_cons, List.length_append]
    exact ⟨by omega, fun hgrow => by omega⟩
  · -- no best match
    rename_i heq
    rw [heq] at hlen
    simp only [Option.toList_none, List.length_nil] at hlen
    split
    · -- queue still non-empty after the scan
      rename_i oldInst restAvail heq2
      have hlen2 := congrArg List.length heq2
      simp only [List.length_append, List.length_cons] at hlen2
      split
      · -- at or over capacity: reconfigure the front instance
        rename_i hcap
        split
        · simp only [List.length_cons]
          exact ⟨by omega, fun hgrow => by omega⟩
        · simp only []
          exact ⟨by omega, fun hgrow => by omega⟩
      · -- below capacity: fall through to creation
        rename_i hcap
        have hc := createNew_total s (oldInst :: restAvail)
          ((scanAvailable h p s.available).dead.map (fun i => i.driverId)
            ++ s.destroyed) p c
        refine ⟨le_trans hc.1 ?_, fun hgrow => hc.2 ?_⟩
        · simp only [List.length_cons]
          omega
        · simp only [List.length_cons] at hgrow ⊢
          omega
    · -- queue empty after the scan
      rename_i heq2
      have hlen2 := congrArg List.length heq2
      simp only [List.length_append, List.length_nil] at hlen2
      have hc := createNew_total s []
        ((scanAvailable h p s.available).dead.map (fun i => i.driverId)
          ++ s.destroyed) p c
      refine ⟨le_trans hc.1 ?_, fun hgrow => hc.2 ?_⟩
      · simp only [List.length_nil]
        omega
      · simp only [List.length_nil]
        omega

theorem return_driver_total (s : PoolState) (instId : Nat) (hadError : Bool)
    (h2 : Nat → Bool) :
    (return_driver s instId hadError h2).active.length
      + (return_driver s instId hadError h2).available.length
      ≤ s.active.length + s.available.length := by
  simp only [return_driver]
  split
  · exact Nat.le_refl _
  · rename_i inst hf
    have hmem := List.mem_of_find?_eq_some hf
    have hpred := List.find?_some hf
    have hlt : (s.active.filter (fun i => !(i.instId == instId))).length
        < s.active.length := by
      rw [List.length_filter_lt_length_iff_exists]
      exact ⟨inst, hmem, by simp [hpred]⟩
    generalize (if hadError = true then (1 : Nat) else 0) = k
    split
    · simp only []
      omega
    · split
      · simp only [List.length_append, List.length_singleton]
        omega
      · simp only []
        omega

/-- C1 (amended): the combined count `|in_use| + |available|` is NOT
bounded by `max_size`; what the code guarantees is that a single
`get_driver` call grows the combined count by at most one, that it grows
it at all only when the pre-call `|in_use|` is strictly below
`max_drivers` (the only guard `get_driver` checks before creating a fresh
instance), and that `return_driver` never grows the combined count. -/
theorem pool_capacity_growth :
    ∀ (s : PoolState) (p : Option String) (h : Nat → Bool) (c : Bool)
      (instId : Nat) (hadError : Bool) (h2 : Nat → Bool),
      ((get_driver s p h c).1.active.length + (get_driver s p h c).1.available.length
        ≤ s.active.length + s.available.length + 1)
      ∧ (s.active.length + s.available.length <
          (get_driver s p h c).1.active.length + (get_driver s p h c).1.available.length →
          s.active.length < s.maxDrivers)
      ∧ ((return_driver s instId hadError h2).active.length
          + (return_driver s instId hadError h2).available.length
          ≤ s.active.length + s.available.length) := by
  intro s p h c instId hadError h2
  exact ⟨(get_driver_total s p h c).1, (get_driver_total s p h c).2,
    return_driver_total s instId hadError h2⟩

/-- Witness for the amended C1 theorem: on an empty pool of capacity one,
an acquire that does create (growing the count) indeed had `|in_use| = 0`
below `max_drivers = 1`. -/
theorem pool_capacity_growth_witness :
    (mkPool 1).active.length < (mkPool 1).maxDrivers := by
  exact (pool_capacity_growth (mkPool 1) (some "1.1.1.1:80") (fun _ => true) true
    0 false (fun _ => true)).2.1 (by decide)

/-! ## Pool invariant

The reachable-state invariant needed for the proxy-binding (C4) and
error-eviction (C7) claims. -/

/-- Look a driver id up in the launch log (most recent entry first). -/
def logLookup (log : List (Nat × Option String)) (d : Nat) : Option (Option String) :=
  (log.find? (fun e => e.1 == d)).map (fun e => e.2)

/-- Every instance the pool still references, idle or checked out. -/
def allInsts (s : PoolState) : List DriverInst := s.available ++ s.active

/-- Invariant over pool states: idle instances have fewer than three
errors; all referenced and destroyed driver ids are below the id counter;
every referenced instance's driver is logged with exactly the instance's
current proxy and is not destroyed; distinct references hold distinct
drivers. -/
structure PoolInv (s : PoolState) : Prop where
  availEc : ∀ inst ∈ s.available, inst.errorCount < 3
  instLt : ∀ inst ∈ allInsts s, inst.driverId < s.nextDriverId
  logLt : ∀ e ∈ s.driverLog, e.1 < s.nextDriverId
  destroyedLt : ∀ d ∈ s.destroyed, d < s.nextDriverId
  notDestroyed : ∀ inst ∈ allInsts s, inst.driverId ∉ s.destroyed
  logBinding : ∀ inst ∈ allInsts s,
    logLookup s.driverLog inst.driverId = some inst.currentProxy
  nodupIds : ((allInsts s).map (fun i => i.driverId)).Nodup

theorem logLookup_cons_self (d : Nat) (v : Option String)
    (log : List (Nat × Option String)) :
    logLookup ((d, v) :: log) d = some v := by
  simp [logLookup, List.find?]

theorem logLookup_cons_ne (k d : Nat) (v : Option String)
    (log : List (Nat × Option String)) (hne : k ≠ d) :
    logLookup ((k, v) :: log) d = logLookup log d := by
  simp only [logLookup, List.find?]
  have : (k == d) = false := by simpa using hne
  simp [this]

theorem mkPool_inv (n : Nat) : PoolInv (mkPool n) := by
  refine ⟨?_, ?_, ?_, ?_, ?_, ?_, ?_⟩ <;> simp [mkPool, allInsts]

theorem scanAvailable_perm (h : Nat → Bool) (p : Option String)
    (l : List DriverInst) :
    List.Perm l ((scanAvailable h p l).best.toList
      ++ ((scanAvailable h p l).remaining
        ++ ((scanAvailable h p l).temp ++ (scanAvailable h p l).dead))) := by
  induction l with
  | nil => simp [scanAvailable]
  | cons inst rest ih =>
    simp only [scanAvailable]
    cases h1 : h inst.driverId
    · simp only [Bool.false_eq_true, if_false]
      refine (List.Perm.cons inst ih).trans ?_
      have hmid := (@List.perm_middle _ inst
        ((scanAvailable h p rest).best.toList
          ++ ((scanAvailable h p rest).remaining ++ (scanAvailable h p rest).temp))
        (scanAvailable h p rest).dead).symm
      simpa [List.append_assoc] using hmid
    · cases h2 : canReuse inst p
      · simp only [if_true, Bool.false_eq_true, if_false]
        refine (List.Perm.cons inst ih).trans ?_
        have hmid := (@List.perm_middle _ inst
          ((scanAvailable h p rest).best.toList
            ++ (scanAvailable h p rest).remaining)
          ((scanAvailable h p rest).temp ++ (scanAvailable h p rest).dead)).symm
        simpa [List.append_assoc] using hmid
      · simp only [if_true]
        simp

/-- Every instance the scan keeps or destroys came from the queue. -/
theorem scanAvailable_mem (h : Nat → Bool) (p : Option String)
    (l : List DriverInst) (x : DriverInst)
    (hx : x ∈ (scanAvailable h p l).best.toList
      ++ ((scanAvailable h p l).remaining
        ++ ((scanAvailable h p l).temp ++ (scanAvailable h p l).dead))) :
    x ∈ l :=
  (scanAvailable_perm h p l).mem_iff.mpr hx

/-- The best match passed `_can_reuse_driver`. -/
theorem scanAvailable_best_canReuse (h : Nat → Bool) (p : Option String)
    (l : List DriverInst) (i : DriverInst)
    (hb : (scanAvailable h p l).best = some i) : canReuse i p = true := by
  induction l with
  | nil => simp [scanAvailable] at hb
  | cons inst rest ih =>
    simp only [scanAvailable] at hb
    cases h1 : h inst.driverId <;> rw [h1] at hb
    · simp only [Bool.false_eq_true, if_false] at hb
      exact ih hb
    · cases h2 : canReuse inst p <;> rw [h2] at hb
      · simp only [Bool.false_eq_true, if_true, if_false] at hb
        exact ih hb
      · simp only [if_true] at hb
        cases hb
        exact h2

theorem scan_mem_rem (h : Nat → Bool) (p : Option String) (l : List DriverInst)
    (x : DriverInst) (hx : x ∈ (scanAvailable h p l).remaining) : x ∈ l :=
  scanAvailable_mem h p l x (by simp [hx])

theorem scan_mem_temp (h : Nat → Bool) (p : Option String) (l : List DriverInst)
    (x : DriverInst) (hx : x ∈ (scanAvailable h p l).temp) : x ∈ l :=
  scanAvailable_mem h p l x (by simp [hx])

theorem scan_mem_dead (h : Nat → Bool) (p : Option String) (l : List DriverInst)
    (x : DriverInst) (hx : x ∈ (scanAvailable h p l).dead) : x ∈ l :=
  scanAvailable_mem h p l x (by simp [hx])

theorem scan_mem_best (h : Nat → Bool) (p : Option String) (l : List DriverInst)
    (i : DriverInst) (hb : (scanAvailable h p l).best = some i) : i ∈ l :=
  scanAvailable_mem h p l i (by simp [hb])

/-- Dropping the block `Dd` from the middle of a duplicate-free
concatenation keeps it duplicate-free and disjoint from `Dd`. -/
theorem nodup_five_facts (A B C Dd E : List Nat)
    (hn : (A ++ (B ++ (C ++ (Dd ++ E)))).Nodup) :
    (A ++ (B ++ (C ++ E))).Nodup ∧ ∀ x ∈ A ++ (B ++ (C ++ E)), x ∉ Dd := by
  have hp : List.Perm (A ++ (B ++ (C ++ (Dd ++ E)))) (Dd ++ (A ++ (B ++ (C ++ E)))) := by
    have h1 : List.Perm (Dd ++ E) (E ++ Dd) := List.perm_append_comm
    have h2 : List.Perm (A ++ (B ++ (C ++ (Dd ++ E)))) (A ++ (B ++ (C ++ (E ++ Dd)))) :=
      List.Perm.append_left A (List.Perm.append_left B (List.Perm.append_left C h1))
    refine h2.trans ?_
    have h3 : A ++ (B ++ (C ++ (E ++ Dd))) = (A ++ (B ++ (C ++ E))) ++ Dd := by
      simp [List.append_assoc]
    rw [h3]
    exact List.perm_append_comm
  have hn2 := hp.nodup_iff.mp hn
  rcases List.nodup_append.mp hn2 with ⟨hDd, hK, hdisj⟩
  exact ⟨hK, fun x hx hxD => hdisj hxD hx⟩

theorem nodup_insert_fresh (A E : List Nat) (n : Nat)
    (hn : (A ++ E).Nodup) (hfresh : ∀ x ∈ A ++ E, x < n) :
    (A ++ (n :: E)).Nodup := by
  refine (@List.perm_middle _ n A E).nodup_iff.mpr ?_
  refine List.Nodup.cons ?_ hn
  intro hmem
  exact absurd (hfresh n hmem) (lt_irrefl n)

theorem nodup_insert_middle (A E : List Nat) (n : Nat)
    (hn : (n :: (A ++ E)).Nodup) : (A ++ (n :: E)).Nodup :=
  (@List.perm_middle _ n A E).nodup_iff.mpr hn

theorem createNew_inv (s : PoolState) (avail : List DriverInst) (dest : List Nat)
    (p : Option String) (c : Bool)
    (hinv : PoolInv { s with available := avail, destroyed := dest }) :
    PoolInv (createNew s avail dest p c).1
    ∧ (∀ inst, (createNew s avail dest p c).2 = some inst →
        inst.currentProxy = p ∧ inst.errorCount < 3 ∧ inst.driverId ∉ dest
        ∧ logLookup (createNew s avail dest p c).1.driverLog inst.driverId = some p) := by
  have hEc := hinv.availEc
  have hLt := hinv.instLt
  have hLogLt := hinv.logLt
  have hDLt := hinv.destroyedLt
  have hND := hinv.notDestroyed
  have hLB := hinv.logBinding
  have hNd := hinv.nodupIds
  simp only [allInsts] at hEc hLt hLogLt hDLt hND hLB hNd
  unfold createNew
  by_cases h1 : s.active.length < s.maxDrivers
  · rw [if_pos h1]
    cases c
    · simp only [Bool.false_eq_true, if_false]
      refine ⟨hinv, ?_⟩
      intro inst hinst
      simp at hinst
    · simp only [if_true]
      constructor
      · refine ⟨?_, ?_, ?_, ?_, ?_, ?_, ?_⟩
        · intro x hx
          exact hEc x hx
        · intro x hx
          simp only [allInsts, List.mem_append, List.mem_cons] at hx
          rcases hx with hx | hx | hx
          · exact Nat.lt_succ_of_lt (hLt x (by simp [hx]))
          · subst hx
            exact Nat.lt_succ_self _
          · exact Nat.lt_succ_of_lt (hLt x (by simp [hx]))
        · intro e he
          simp only [List.mem_cons] at he
          rcases he with he | he
          · subst he
            exact Nat.lt_succ_self _
          · exact Nat.lt_succ_of_lt (hLogLt e he)
        · intro d hd
          exact Nat.lt_succ_of_lt (hDLt d hd)
        · intro x hx
          simp only [allInsts, List.mem_append, List.mem_cons] at hx
          rcases hx with hx | hx | hx
          · exact hND x (by simp [hx])
          · subst hx
            intro hmem
            exact absurd (hDLt _ hmem) (lt_irrefl _)
          · exact hND x (by simp [hx])
        · intro x hx
          simp only [allInsts, List.mem_append, List.mem_cons] at hx
          rcases hx with hx | hx | hx
          · have hne : s.nextDriverId ≠ x.driverId :=
              Nat.ne_of_gt (hLt x (by simp [hx]))
            rw [logLookup_cons_ne _ _ _ _ hne]
            exact hLB x (by simp [hx])
          · subst hx
            exact logLookup_cons_self _ _ _
          · have hne : s.nextDriverId ≠ x.driverId :=
              Nat.ne_of_gt (hLt x (by simp [hx]))
            rw [logLookup_cons_ne _ _ _ _ hne]
            exact hLB x (by simp [hx])
        · simp only [allInsts, List.map_append, List.map_cons]
          refine nodup_insert_fresh _ _ _ ?_ ?_
          · simpa [List.map_append] using hNd
          · intro x hx
            simp only [List.mem_append, List.mem_map] at hx
            rcases hx with ⟨y, hy, rfl⟩ | ⟨y, hy, rfl⟩
            · exact hLt y (by simp [hy])
            · exact hLt y (by simp [hy])
      · intro inst hinst
        simp only [Option.some.injEq] at hinst
        subst hinst
        refine ⟨rfl, Nat.succ_pos 2, ?_, ?_⟩
        · intro hmem
          exact absurd (hDLt _ hmem) (lt_irrefl _)
        · exact logLookup_cons_self _ _ _
  · rw [if_neg h1]
    refine ⟨hinv, ?_⟩
    intro inst hinst
    simp at hinst

theorem get_driver_spec (s : PoolState) (p : Option String) (h : Nat → Bool)
    (c : Bool) (hs : PoolInv s) :
    PoolInv (get_driver s p h c).1
    ∧ (∀ inst, (get_driver s p h c).2 = some inst →
        inst.currentProxy = p
        ∧ inst.errorCount < 3
        ∧ inst.driverId ∉ s.destroyed
        ∧ logLookup (get_driver s p h c).1.driverLog inst.driverId = some p) := by
  have hperm := scanAvailable_perm h p s.available
  have hnodupBig : ((scanAvailable h p s.available).best.toList.map (fun i => i.driverId)
      ++ ((scanAvailable h p s.available).remaining.map (fun i => i.driverId)
        ++ ((scanAvailable h p s.available).temp.map (fun i => i.driverId)
          ++ ((scanAvailable h p s.available).dead.map (fun i => i.driverId)
            ++ s.active.map (fun i => i.driverId))))).Nodup := by
    have h2 := (List.Perm.append_right s.active hperm).map (fun i => i.driverId)
    have h3 := h2.nodup_iff.mp (by simpa [allInsts] using hs.nodupIds)
    simpa [List.map_append, List.append_assoc] using h3
  have hmemRT : ∀ x, x ∈ (scanAvailable h p s.available).remaining
      ++ (scanAvailable h p s.available).temp → x ∈ s.available := by
    intro x hx
    rcases List.mem_append.mp hx with h1 | h1
    · exact scan_mem_rem _ _ _ _ h1
    · exact scan_mem_temp _ _ _ _ h1
  have hdeadLt : ∀ d ∈ (scanAvailable h p s.available).dead.map (fun i => i.driverId),
      d < s.nextDriverId := by
    intro d hd
    rcases List.mem_map.mp hd with ⟨y, hy, rfl⟩
    exact hs.instLt y (by simp [allInsts, scan_mem_dead h p s.available y hy])
  simp only [get_driver]
  split
  · -- branch A: a best match was found in the queue
    rename_i inst heq
    have hbestmem : inst ∈ s.available := scan_mem_best _ _ _ _ heq
    have hcr := scanAvailable_best_canReuse h p s.available inst heq
    have hcrP : inst.currentProxy = p ∧ inst.errorCount < 3 := by
      simpa [canReuse] using hcr
    have hfacts := nodup_five_facts
      [inst.driverId]
      ((scanAvailable h p s.available).remaining.map (fun i => i.driverId))
      ((scanAvailable h p s.available).temp.map (fun i => i.driverId))
      ((scanAvailable h p s.available).dead.map (fun i => i.driverId))
      (s.active.map (fun i => i.driverId))
      (by rw [heq] at hnodupBig; simpa using hnodupBig)
    constructor
    · refine ⟨?_, ?_, ?_, ?_, ?_, ?_, ?_⟩
      · intro x hx
        exact hs.availEc x (hmemRT x hx)
      · intro x hx
        simp only [allInsts, List.mem_append, List.mem_cons] at hx
        rcases hx with (hx | hx) | (rfl | hx)
        · exact hs.instLt x (by simp [allInsts, scan_mem_rem h p s.available x hx])
        · exact hs.instLt x (by simp [allInsts, scan_mem_temp h p s.available x hx])
        · exact hs.instLt inst (by simp [allInsts, hbestmem])
        · exact hs.instLt x (by simp [allInsts, hx])
      · exact hs.logLt
      · intro d hd
        rcases List.mem_append.mp hd with hd | hd
        · exact hdeadLt d hd
        · exact hs.destroyedLt d hd
      · intro x hx hdmem
        simp only [allInsts, List.mem_append, List.mem_cons] at hx
        rcases List.mem_append.mp hdmem with hdm | hdm
        · rcases hx with (hx | hx) | (rfl | hx)
          · exact hfacts.2 x.driverId
              (by simp [List.mem_map_of_mem (fun i => i.driverId) hx]) hdm
          · exact hfacts.2 x.driverId
              (by simp [List.mem_map_of_mem (fun i => i.driverId) hx]) hdm
          · exact hfacts.2 inst.driverId (by simp) hdm
          · exact hfacts.2 x.driverId
              (by simp [List.mem_map_of_mem (fun i => i.driverId) hx]) hdm
        · rcases hx with (hx | hx) | (rfl | hx)
          · exact hs.notDestroyed x
              (by simp [allInsts, scan_mem_rem h p s.available x hx]) hdm
          · exact hs.notDestroyed x
              (by simp [allInsts, scan_mem_temp h p s.available x hx]) hdm
          · exact hs.notDestroyed inst (by simp [allInsts, hbestmem]) hdm
          · exact hs.notDestroyed x (by simp [allInsts, hx]) hdm
      · intro x hx
        simp only [allInsts, List.mem_append, List.mem_cons] at hx
        rcases hx with (hx | hx) | (rfl | hx)
        · exact hs.logBinding x (by simp [allInsts, scan_mem_rem h p s.available x hx])
        · exact hs.logBinding x (by simp [allInsts, scan_mem_temp h p s.available x hx])
        · exact hs.logBinding inst (by simp [allInsts, hbestmem])
        · exact hs.logBinding x (by simp [allInsts, hx])
      · simp only [allInsts, List.map_append, List.map_cons]
        refine nodup_insert_middle _ _ _ ?_
        have hkeep := hfacts.1
        simpa [List.append_assoc] using hkeep
    · intro i hi
      simp only [Option.some.injEq] at hi
      subst hi
      refine ⟨hcrP.1, hcrP.2, hs.notDestroyed inst (by simp [allInsts, hbestmem]), ?_⟩
      have hlb := hs.logBinding inst (by simp [allInsts, hbestmem])
      rw [hcrP.1] at hlb
      exact hlb
  · -- no best match
    rename_i heq
    have hfacts := nodup_five_facts
      []
      ((scanAvailable h p s.available).remaining.map (fun i => i.driverId))
      ((scanAvailable h p s.available).temp.map (fun i => i.driverId))
      ((scanAvailable h p s.available).dead.map (fun i => i.driverId))
      (s.active.map (fun i => i.driverId))
      (by rw [heq] at hnodupBig; simpa using hnodupBig)
    have hdisj : ∀ x ∈ (((scanAvailable h p s.available).remaining.map (fun i => i.driverId)
        ++ (scanAvailable h p s.available).temp.map (fun i => i.driverId))
          ++ s.active.map (fun i => i.driverId)),
        x ∉ (scanAvailable h p s.available).dead.map (fun i => i.driverId) := by
      intro x hx
      refine hfacts.2 x ?_
      simpa [List.append_assoc] using hx
    have hkeep : (((scanAvailable h p s.available).remaining.map (fun i => i.driverId)
        ++ (scanAvailable h p s.available).temp.map (fun i => i.driverId))
        ++ s.active.map (fun i => i.driverId)).Nodup := by
      have := hfacts.1
      simpa [List.append_assoc] using this
    split
    · -- the queue is still non-empty: reconfigure branch guard
      rename_i oldInst restAvail heq2
      have hmapeq : (scanAvailable h p s.available).remaining.map (fun i => i.driverId)
          ++ (scanAvailable h p s.available).temp.map (fun i => i.driverId)
          = oldInst.driverId :: restAvail.map (fun i => i.driverId) := by
        have := congrArg (List.map (fun i => i.driverId)) heq2
        simpa [List.map_append] using this
      have hkeep2 : (oldInst.driverId ::
          (restAvail.map (fun i => i.driverId)
            ++ s.active.map (fun i => i.driverId))).Nodup := by
        rw [hmapeq] at hkeep
        simpa using hkeep
      have holdnotin := (List.nodup_cons.mp hkeep2).1
      have hkeep3 := (List.nodup_cons.mp hkeep2).2
      have hmemRest : ∀ x ∈ restAvail, x ∈ s.available := by
        intro x hx
        refine hmemRT x ?_
        rw [heq2]
        exact List.mem_cons_of_mem _ hx
      have holdmem : oldInst ∈ s.available := by
        refine hmemRT oldInst ?_
        rw [heq2]
        exact List.mem_cons_self _ _
      have hdisj2 : ∀ x, x ∈ oldInst.driverId ::
          (restAvail.map (fun i => i.driverId) ++ s.active.map (fun i => i.driverId)) →
          x ∉ (scanAvailable h p s.available).dead.map (fun i => i.driverId) := by
        intro x hx
        refine hdisj x ?_
        rcases List.mem_cons.mp hx with rfl | hx2
        · refine List.mem_append_left _ ?_
          rw [hmapeq]
          exact List.mem_cons_self _ _
        · rcases List.mem_append.mp hx2 with hx3 | hx3
          · refine List.mem_append_left _ ?_
            rw [hmapeq]
            exact List.mem_cons_of_mem _ hx3
          · exact List.mem_append_right _ hx3
      have hafterInv : PoolInv { s with
          available := oldInst :: restAvail,
          destroyed := (scanAvailable h p s.available).dead.map (fun i => i.driverId)
            ++ s.destroyed } := by
        refine ⟨?_, ?_, ?_, ?_, ?_, ?_, ?_⟩
        · intro x hx
          rcases List.mem_cons.mp hx with rfl | hx2
          · exact hs.availEc x holdmem
          · exact hs.availEc x (hmemRest x hx2)
        · intro x hx
          simp only [allInsts, List.mem_append, List.mem_cons] at hx
          rcases hx with (rfl | hx) | hx
          · exact hs.instLt x (by simp [allInsts, holdmem])
          · exact hs.instLt x (by simp [allInsts, hmemRest x hx])
          · exact hs.instLt x (by simp [allInsts, hx])
        · exact hs.logLt
        · intro d hd
          rcases List.mem_append.mp hd with hd | hd
          · exact hdeadLt d hd
          · exact hs.destroyedLt d hd
        · intro x hx hdmem
          simp only [allInsts, List.mem_append, List.mem_cons] at hx
          rcases List.mem_append.mp hdmem with hdm | hdm
          · rcases hx with (rfl | hx) | hx
            · exact hdisj2 x.driverId (by simp) hdm
            · exact hdisj2 x.driverId
                (by simp [List.mem_map_of_mem (fun i => i.driverId) hx]) hdm
            · exact hdisj2 x.driverId
                (by simp [List.mem_map_of_mem (fun i => i.driverId) hx]) hdm
          · rcases hx with (rfl | hx) | hx
            · exact hs.notDestroyed x (by simp [allInsts, holdmem]) hdm
            · exact hs.notDestroyed x (by simp [allInsts, hmemRest x hx]) hdm
            · exact hs.notDestroyed x (by simp [allInsts, hx]) hdm
        · intro x hx
          simp only [allInsts, List.mem_append, List.mem_cons] at hx
          rcases hx with (rfl | hx) | hx
          · exact hs.logBinding x (by simp [allInsts, holdmem])
          · exact hs.logBinding x (by simp [allInsts, hmemRest x hx])
          · exact hs.logBinding x (by simp [allInsts, hx])
        · simp only [allInsts, List.map_append, List.map_cons]
          simpa using hkeep2
      split
      · -- at or over capacity: reconfigure the front idle instance
        rename_i hcap
        split
        · -- reconfiguration launches a new driver successfully
          rename_i hc
          have hrestLt : ∀ x ∈ restAvail, x.driverId < s.nextDriverId := by
            intro x hx
            exact hs.instLt x (by simp [allInsts, hmemRest x hx])
          have hactLt : ∀ x ∈ s.active, x.driverId < s.nextDriverId := by
            intro x hx
            exact hs.instLt x (by simp [allInsts, hx])
          have holdLt : oldInst.driverId < s.nextDriverId :=
            hs.instLt oldInst (by simp [allInsts, holdmem])
          constructor
          · refine ⟨?_, ?_, ?_, ?_, ?_, ?_, ?_⟩
            · intro x hx
              exact hs.availEc x (hmemRest x hx)
            · intro x hx
              simp only [allInsts, List.mem_append, List.mem_cons] at hx
              rcases hx with hx | rfl | hx
              · exact Nat.lt_succ_of_lt (hrestLt x hx)
              · exact Nat.lt_succ_self _
              · exact Nat.lt_succ_of_lt (hactLt x hx)
            · intro e he
              rcases List.mem_cons.mp he with rfl | he2
              · exact Nat.lt_succ_self _
              · exact Nat.lt_succ_of_lt (hs.logLt e he2)
            · intro d hd
              rcases List.mem_cons.mp hd with rfl | hd2
              · exact Nat.lt_succ_of_lt holdLt
              · rcases List.mem_append.mp hd2 with hd3 | hd3
                · exact Nat.lt_succ_of_lt (hdeadLt d hd3)
                · exact Nat.lt_succ_of_lt (hs.destroyedLt d hd3)
            · intro x hx hdmem
              simp only [allInsts, List.mem_append, List.mem_cons] at hx
              rcases List.mem_cons.mp hdmem with hdm | hdm
              · -- driver id equal to the reconfigured-away old driver
                rcases hx with hx | rfl | hx
                · refine holdnotin ?_
                  rw [← hdm]
                  simp [List.mem_map_of_mem (fun i => i.driverId) hx]
                · exact (Nat.ne_of_gt holdLt) hdm
                · refine holdnotin ?_
                  rw [← hdm]
                  simp [List.mem_map_of_mem (fun i => i.driverId) hx]
              · rcases List.mem_append.mp hdm with hdm2 | hdm2
                · rcases hx with hx | rfl | hx
                  · exact hdisj2 x.driverId
                      (by simp [List.mem_map_of_mem (fun i => i.driverId) hx]) hdm2
                  · exact absurd (hdeadLt _ hdm2) (lt_irrefl _)
                  · exact hdisj2 x.driverId
                      (by simp [List.mem_map_of_mem (fun i => i.driverId) hx]) hdm2
                · rcases hx with hx | rfl | hx
                  · exact hs.notDestroyed x (by simp [allInsts, hmemRest x hx]) hdm2
                  · exact absurd (hs.destroyedLt _ hdm2) (lt_irrefl _)
                  · exact hs.notDestroyed x (by simp [allInsts, hx]) hdm2
            · intro x hx
              simp only [allInsts, List.mem_append, List.mem_cons] at hx
              rcases hx with hx | rfl | hx
              · have hne : s.nextDriverId ≠ x.driverId := Nat.ne_of_gt (hrestLt x hx)
                rw [logLookup_cons_ne _ _ _ _ hne]
                exact hs.logBinding x (by simp [allInsts, hmemRest x hx])
              · exact logLookup_cons_self _ _ _
              · have hne : s.nextDriverId ≠ x.driverId := Nat.ne_of_gt (hactLt x hx)
                rw [logLookup_cons_ne _ _ _ _ hne]
                exact hs.logBinding x (by simp [allInsts, hx])
            · simp only [allInsts, List.map_append, List.map_cons]
              refine nodup_insert_fresh _ _ _ hkeep3 ?_
              intro x hx
              rcases List.mem_append.mp hx with hx | hx
              · rcases List.mem_map.mp hx with ⟨y, hy, rfl⟩
                exact hrestLt y hy
              · rcases List.mem_map.mp hx with ⟨y, hy, rfl⟩
                exact hactLt y hy
          · intro i hi
            simp only [Option.some.injEq] at hi
            subst hi
            refine ⟨rfl, Nat.succ_pos 2, ?_, logLookup_cons_self _ _ _⟩
            intro hmem
            exact absurd (hs.destroyedLt _ hmem) (lt_irrefl _)
        · -- reconfiguration failed to launch a replacement driver
          constructor
          · refine ⟨?_, ?_, ?_, ?_, ?_, ?_, ?_⟩
            · intro x hx
              exact hs.availEc x (hmemRest x hx)
            · intro x hx
              simp only [allInsts, List.mem_append] at hx
              rcases hx with hx | hx
              · exact hs.instLt x (by simp [allInsts, hmemRest x hx])
              · exact hs.instLt x (by simp [allInsts, hx])
            · exact hs.logLt
            · intro d hd
              rcases List.mem_cons.mp hd with rfl | hd2
              · exact hs.instLt oldInst (by simp [allInsts, holdmem])
              · rcases List.mem_append.mp hd2 with hd3 | hd3
                · exact hdeadLt d hd3
                · exact hs.destroyedLt d hd3
            · intro x hx hdmem
              simp only [allInsts, List.mem_append] at hx
              rcases List.mem_cons.mp hdmem with hdm | hdm
              · rcases hx with hx | hx
                · refine holdnotin ?_
                  rw [← hdm]
                  simp [List.mem_map_of_mem (fun i => i.driverId) hx]
                · refine holdnotin ?_
                  rw [← hdm]
                  simp [List.mem_map_of_mem (fun i => i.driverId) hx]
              · rcases List.mem_append.mp hdm with hdm2 | hdm2
                · rcases hx with hx | hx
                  · exact hdisj2 x.driverId
                      (by simp [List.mem_map_of_mem (fun i => i.driverId) hx]) hdm2
                  · exact hdisj2 x.driverId
                      (by simp [List.mem_map_of_mem (fun i => i.driverId) hx]) hdm2
                · rcases hx with hx | hx
                  · exact hs.notDestroyed x (by simp [allInsts, hmemRest x hx]) hdm2
                  · exact hs.notDestroyed x (by simp [allInsts, hx]) hdm2
            · intro x hx
              simp only [allInsts, List.mem_append] at hx
              rcases hx with hx | hx
              · exact hs.logBinding x (by simp [allInsts, hmemRest x hx])
              · exact hs.logBinding x (by simp [allInsts, hx])
            · simp only [allInsts, List.map_append]
              exact hkeep3
          · intro i hi
            simp at hi
      · -- under capacity: fall through to creation
        have hc := createNew_inv s (oldInst :: restAvail)
          ((scanAvailable h p s.available).dead.map (fun i => i.driverId)
            ++ s.destroyed) p c hafterInv
        refine ⟨hc.1, ?_⟩
        intro i hi
        rcases hc.2 i hi with ⟨h1, h2, h3, h4⟩
        refine ⟨h1, h2, ?_, h4⟩
        intro hmem
        exact h3 (by simp [hmem])
    · -- the queue was emptied by the scan
      rename_i heq2
      have hmapeq : (scanAvailable h p s.available).remaining.map (fun i => i.driverId)
          ++ (scanAvailable h p s.available).temp.map (fun i => i.driverId) = [] := by
        have := congrArg (List.map (fun i => i.driverId)) heq2
        simpa [List.map_append] using this
      have hafterInv : PoolInv { s with
          available := [],
          destroyed := (scanAvailable h p s.available).dead.map (fun i => i.driverId)
            ++ s.destroyed } := by
        refine ⟨?_, ?_, ?_, ?_, ?_, ?_, ?_⟩
        · intro x hx
          simp at hx
        · intro x hx
          simp only [allInsts, List.nil_append] at hx
          exact hs.instLt x (by simp [allInsts, hx])
        · exact hs.logLt
        · intro d hd
          rcases List.mem_append.mp hd with hd | hd
          · exact hdeadLt d hd
          · exact hs.destroyedLt d hd
        · intro x hx hdmem
          simp only [allInsts, List.nil_append] at hx
          rcases List.mem_append.mp hdmem with hdm | hdm
          · refine hdisj x.driverId ?_ hdm
            simp [List.mem_map_of_mem (fun i => i.driverId) hx]
          · exact hs.notDestroyed x (by simp [allInsts, hx]) hdm
        · intro x hx
          simp only [allInsts, List.nil_append] at hx
          exact hs.logBinding x (by simp [allInsts, hx])
        · simp only [allInsts, List.nil_append]
          rw [hmapeq] at hkeep
          simpa using hkeep
      have hc := createNew_inv s []
        ((scanAvailable h p s.available).dead.map (fun i => i.driverId)
          ++ s.destroyed) p c hafterInv
      refine ⟨hc.1, ?_⟩
      intro i hi
      rcases hc.2 i hi with ⟨h1, h2, h3, h4⟩
      refine ⟨h1, h2, ?_, h4⟩
      intro hmem
      exact h3 (by simp [hmem])

theorem return_driver_inv (s : PoolState) (instId : Nat) (hadError : Bool)
    (h2 : Nat → Bool) (hs : PoolInv s) :
    PoolInv (return_driver s instId hadError h2) := by
  have hndact : (s.active.map (fun i => i.driverId)).Nodup := by
    have := hs.nodupIds
    simp only [allInsts, List.map_append] at this
    exact List.Nodup.of_append_right this
  have hsplit := List.nodup_append.mp
    (by simpa [allInsts, List.map_append] using hs.nodupIds)
  simp only [return_driver]
  split
  · exact hs
  · rename_i inst hf
    have hmem : inst ∈ s.active := List.mem_of_find?_eq_some hf
    have hpred : (inst.instId == instId) = true := by
      simpa using List.find?_some hf
    have hdidact : inst.driverId ∈ s.active.map (fun i => i.driverId) :=
      List.mem_map_of_mem _ hmem
    have hdidnotavail : inst.driverId ∉ s.available.map (fun i => i.driverId) := by
      intro hmm
      exact hsplit.2.2 hmm hdidact
    have hfsubl : List.Sublist (s.active.filter (fun i => !(i.instId == instId)))
        s.active := List.filter_sublist s.active
    have hndfilter : ((s.active.filter (fun i => !(i.instId == instId))).map
        (fun i => i.driverId)).Nodup :=
      List.Nodup.sublist (List.Sublist.map _ hfsubl) hndact
    have hdidnotfilter : inst.driverId ∉
        (s.active.filter (fun i => !(i.instId == instId))).map (fun i => i.driverId) := by
      intro hmm
      rcases List.mem_map.mp hmm with ⟨y, hy, hyeq⟩
      have hyact : y ∈ s.active := List.mem_of_mem_filter hy
      have hyinst : y = inst :=
        List.inj_on_of_nodup_map hndact hyact hmem hyeq
      subst hyinst
      have := List.of_mem_filter hy
      rw [hpred] at this
      simp at this
    have hfiltermem : ∀ x ∈ s.active.filter (fun i => !(i.instId == instId)),
        x ∈ s.active := fun x hx => List.mem_of_mem_filter hx
    generalize (if hadError = true then (1 : Nat) else 0) = k
    split
    · -- three or more errors: the instance is destroyed
      refine ⟨?_, ?_, ?_, ?_, ?_, ?_, ?_⟩
      · exact hs.availEc
      · intro x hx
        simp only [allInsts, List.mem_append] at hx
        rcases hx with hx | hx
        · exact hs.instLt x (by simp [allInsts, hx])
        · exact hs.instLt x (by simp [allInsts, hfiltermem x hx])
      · exact hs.logLt
      · intro d hd
        rcases List.mem_cons.mp hd with rfl | hd2
        · exact hs.instLt inst (by simp [allInsts, hmem])
        · exact hs.destroyedLt d hd2
      · intro x hx hdmem
        simp only [allInsts, List.mem_append] at hx
        rcases List.mem_cons.mp hdmem with hdm | hdm
        · rcases hx with hx | hx
          · exact hdidnotavail (hdm ▸ List.mem_map_of_mem _ hx)
          · exact hdidnotfilter (hdm ▸ List.mem_map_of_mem _ hx)
        · rcases hx with hx | hx
          · exact hs.notDestroyed x (by simp [allInsts, hx]) hdm
          · exact hs.notDestroyed x (by simp [allInsts, hfiltermem x hx]) hdm
      · intro x hx
        simp only [allInsts, List.mem_append] at hx
        rcases hx with hx | hx
        · exact hs.logBinding x (by simp [allInsts, hx])
        · exact hs.logBinding x (by simp [allInsts, hfiltermem x hx])
      · simp only [allInsts, List.map_append]
        refine List.Nodup.append hsplit.1 hndfilter ?_
        intro a ha hafil
        rcases List.mem_map.mp hafil with ⟨y, hy, rfl⟩
        exact hsplit.2.2 ha (List.mem_map_of_mem _ (hfiltermem y hy))
    · split
      · -- healthy: re-enqueued with the bumped error count
        rename_i hec hh
        have heclt : inst.errorCount + k < 3 := Nat.lt_of_not_le hec
        refine ⟨?_, ?_, ?_, ?_, ?_, ?_, ?_⟩
        · intro x hx
          rcases List.mem_append.mp hx with hx | hx
          · exact hs.availEc x hx
          · rcases List.mem_cons.mp hx with rfl | hx2
            · exact heclt
            · simp at hx2
        · intro x hx
          simp only [allInsts, List.mem_append, List.mem_singleton] at hx
          rcases hx with (hx | rfl) | hx
          · exact hs.instLt x (by simp [allInsts, hx])
          · exact hs.instLt inst (by simp [allInsts, hmem])
          · exact hs.instLt x (by simp [allInsts, hfiltermem x hx])
        · exact hs.logLt
        · exact hs.destroyedLt
        · intro x hx hdmem
          simp only [allInsts, List.mem_append, List.mem_singleton] at hx
          rcases hx with (hx | rfl) | hx
          · exact hs.notDestroyed x (by simp [allInsts, hx]) hdmem
          · exact hs.notDestroyed inst (by simp [allInsts, hmem]) hdmem
          · exact hs.notDestroyed x (by simp [allInsts, hfiltermem x hx]) hdmem
        · intro x hx
          simp only [allInsts, List.mem_append, List.mem_singleton] at hx
          rcases hx with (hx | rfl) | hx
          · exact hs.logBinding x (by simp [allInsts, hx])
          · exact hs.logBinding inst (by simp [allInsts, hmem])
          · exact hs.logBinding x (by simp [allInsts, hfiltermem x hx])
        · simp only [allInsts, List.map_append, List.map_cons, List.map_nil]
          rw [List.append_assoc]
          refine List.Nodup.append hsplit.1 ?_ ?_
          · refine List.Nodup.append (by simp) hndfilter ?_
            intro a ha hafil
            simp only [List.mem_singleton] at ha
            subst ha
            exact hdidnotfilter hafil
          · intro a ha hmem2
            rcases List.mem_append.mp hmem2 with hb | hb
            · simp only [List.mem_singleton] at hb
              subst hb
              exact hdidnotavail ha
            · rcases List.mem_map.mp hb with ⟨y, hy, rfl⟩
              exact hsplit.2.2 ha (List.mem_map_of_mem _ (hfiltermem y hy))
      · -- dead on the health probe: destroyed
        refine ⟨?_, ?_, ?_, ?_, ?_, ?_, ?_⟩
        · exact hs.availEc
        · intro x hx
          simp only [allInsts, List.mem_append] at hx
          rcases hx with hx | hx
          · exact hs.instLt x (by simp [allInsts, hx])
          · exact hs.instLt x (by simp [allInsts, hfiltermem x hx])
        · exact hs.logLt
        · intro d hd
          rcases List.mem_cons.mp hd with rfl | hd2
          · exact hs.instLt inst (by simp [allInsts, hmem])
          · exact hs.destroyedLt d hd2
        · intro x hx hdmem
          simp only [allInsts, List.mem_append] at hx
          rcases List.mem_cons.mp hdmem with hdm | hdm
          · rcases hx with hx | hx
            · exact hdidnotavail (hdm ▸ List.mem_map_of_mem _ hx)
            · exact hdidnotfilter (hdm ▸ List.mem_map_of_mem _ hx)
          · rcases hx with hx | hx
            · exact hs.notDestroyed x (by simp [allInsts, hx]) hdm
            · exact hs.notDestroyed x (by simp [allInsts, hfiltermem x hx]) hdm
        · intro x hx
          simp only [allInsts, List.mem_append] at hx
          rcases hx with hx | hx
          · exact hs.logBinding x (by simp [allInsts, hx])
          · exact hs.logBinding x (by simp [allInsts, hfiltermem x hx])
        · simp only [allInsts, List.map_append]
          refine List.Nodup.append hsplit.1 hndfilter ?_
          intro a ha hafil
          rcases List.mem_map.mp hafil with ⟨y, hy, rfl⟩
          exact hsplit.2.2 ha (List.mem_map_of_mem _ (hfiltermem y hy))

theorem poolStep_inv (s : PoolState) (ev : PoolEvent) (hs : PoolInv s) :
    PoolInv (poolStep s ev) := by
  cases ev with
  | acquire p h c => exact (get_driver_spec s p h c hs).1
  | release i e h => exact return_driver_inv s i e h hs

theorem poolRun_inv (s : PoolState) (evs : List PoolEvent) (hs : PoolInv s) :
    PoolInv (poolRun s evs) := by
  induction evs generalizing s with
  | nil => exact hs
  | cons ev evs ih => exact ih _ (poolStep_inv s ev hs)

theorem createNew_destroyed (s : PoolState) (avail : List DriverInst)
    (dest : List Nat) (p : Option String) (c : Bool) :
    (createNew s avail dest p c).1.destroyed = dest := by
  unfold createNew
  split
  · split
    · rfl
    · rfl
  · rfl

theorem createNew_log (s : PoolState) (avail : List DriverInst)
    (dest : List Nat) (p : Option String) (c : Bool) :
    (createNew s avail dest p c).1.driverLog = s.driverLog
    ∨ (createNew s avail dest p c).1.driverLog = (s.nextDriverId, p) :: s.driverLog := by
  unfold createNew
  split
  · split
    · exact Or.inr rfl
    · exact Or.inl rfl
  · exact Or.inl rfl

theorem get_driver_destroyed_mono (s : PoolState) (p : Option String)
    (h : Nat → Bool) (c : Bool) (d : Nat) (hd : d ∈ s.destroyed) :
    d ∈ (get_driver s p h c).1.destroyed := by
  simp only [get_driver]
  split
  · simp [hd]
  · split
    · split
      · split
        · simp [hd]
        · simp [hd]
      · rw [createNew_destroyed]
        simp [hd]
    · rw [createNew_destroyed]
      simp [hd]

theorem return_driver_destroyed_mono (s : PoolState) (instId : Nat)
    (hadError : Bool) (h2 : Nat → Bool) (d : Nat) (hd : d ∈ s.destroyed) :
    d ∈ (return_driver s instId hadError h2).destroyed := by
  simp only [return_driver]
  split
  · exact hd
  · generalize (if hadError = true then (1 : Nat) else 0) = k
    split
    · simp [hd]
    · split
      · exact hd
      · simp [hd]

theorem poolStep_destroyed_mono (s : PoolState) (ev : PoolEvent) (d : Nat)
    (hd : d ∈ s.destroyed) : d ∈ (poolStep s ev).destroyed := by
  cases ev with
  | acquire p h c => exact get_driver_destroyed_mono s p h c d hd
  | release i e h => exact return_driver_destroyed_mono s i e h d hd

theorem poolRun_destroyed_mono (s : PoolState) (evs : List PoolEvent) (d : Nat)
    (hd : d ∈ s.destroyed) : d ∈ (poolRun s evs).destroyed := by
  induction evs generalizing s with
  | nil => exact hd
  | cons ev evs ih => exact ih _ (poolStep_destroyed_mono s ev d hd)

theorem get_driver_log (s : PoolState) (p : Option String) (h : Nat → Bool)
    (c : Bool) :
    (get_driver s p h c).1.driverLog = s.driverLog
    ∨ (get_driver s p h c).1.driverLog = (s.nextDriverId, p) :: s.driverLog := by
  simp only [get_driver]
  split
  · exact Or.inl rfl
  · split
    · split
      · split
        · exact Or.inr rfl
        · exact Or.inl rfl
      · exact createNew_log s _ _ p c
    · exact createNew_log s _ _ p c

theorem return_driver_log (s : PoolState) (instId : Nat) (hadError : Bool)
    (h2 : Nat → Bool) :
    (return_driver s instId hadError h2).driverLog = s.driverLog := by
  simp only [return_driver]
  split
  · rfl
  · generalize (if hadError = true then (1 : Nat) else 0) = k
    split
    · rfl
    · split
      · rfl
      · rfl

theorem logLookup_lt (s : PoolState) (hs : PoolInv s) (d : Nat) (pr : Option String)
    (hl : logLookup s.driverLog d = some pr) : d < s.nextDriverId := by
  simp only [logLookup] at hl
  cases he : s.driverLog.find? (fun e => e.1 == d) with
  | none =>
    rw [he] at hl
    simp at hl
  | some e =>
    have hmem := List.mem_of_find?_eq_some he
    have hpred : (e.1 == d) = true := by simpa using List.find?_some he
    have heq : e.1 = d := by simpa using hpred
    subst heq
    exact hs.logLt e hmem

theorem poolStep_log_persist (s : PoolState) (ev : PoolEvent) (hs : PoolInv s)
    (d : Nat) (pr : Option String) (hl : logLookup s.driverLog d = some pr) :
    logLookup (poolStep s ev).driverLog d = some pr := by
  have hdlt := logLookup_lt s hs d pr hl
  cases ev with
  | acquire p h c =>
    simp only [poolStep]
    rcases get_driver_log s p h c with heq | heq
    · rw [heq]
      exact hl
    · rw [heq]
      rw [logLookup_cons_ne _ _ _ _ (Nat.ne_of_gt hdlt)]
      exact hl
  | release i e h =>
    simp only [poolStep]
    rw [return_driver_log]
    exact hl

theorem poolRun_log_persist (s : PoolState) (evs : List PoolEvent) (hs : PoolInv s)
    (d : Nat) (pr : Option String) (hl : logLookup s.driverLog d = some pr) :
    logLookup (poolRun s evs).driverLog d = some pr := by
  induction evs generalizing s with
  | nil => exact hl
  | cons ev evs ih =>
    exact ih _ (poolStep_inv s ev hs) (poolStep_log_persist s ev hs d pr hl)

/-- C4: a browser process's proxy binding never changes after construction.
In every state reachable from an empty pool: (i) an instance handed out by
`get_driver` for endpoint `p` has `current_proxy = p`, and its underlying
driver is recorded in the launch log as bound to `p`; (ii) once the launch
log records a binding for a driver id, every later state reports the very
same binding — retargeting never edits a binding, it only happens through
`_reconfigure_driver_proxy`, which quits the old Chrome process and
launches a new one under a fresh driver id. -/
theorem proxy_binding_immutable :
    ∀ (n : Nat) (evs : List PoolEvent) (p : Option String) (h : Nat → Bool)
      (c : Bool),
      (∀ inst, (get_driver (poolRun (mkPool n) evs) p h c).2 = some inst →
        inst.currentProxy = p
        ∧ logLookup (get_driver (poolRun (mkPool n) evs) p h c).1.driverLog
            inst.driverId = some p)
      ∧ (∀ d pr evs2, logLookup (poolRun (mkPool n) evs).driverLog d = some pr →
          logLookup (poolRun (poolRun (mkPool n) evs) evs2).driverLog d = some pr) := by
  intro n evs p h c
  have hinv := poolRun_inv (mkPool n) evs (mkPool_inv n)
  constructor
  · intro inst hinst
    have hspec := (get_driver_spec (poolRun (mkPool n) evs) p h c hinv).2 inst hinst
    exact ⟨hspec.1, hspec.2.2.2⟩
  · intro d pr evs2 hl
    exact poolRun_log_persist _ evs2 hinv d pr hl

/-- Witness for C4: on an empty pool of capacity one, acquiring for
`1.2.3.4:80` hands out an instance bound to that endpoint, its driver is
logged with that binding, and the binding survives a release and a second
acquire that retargets the pool to a different endpoint. -/
theorem proxy_binding_immutable_witness :
    (⟨0, 0, some "1.2.3.4:80", 0, true⟩ : DriverInst).currentProxy = some "1.2.3.4:80"
    ∧ logLookup (get_driver (poolRun (mkPool 1) []) (some "1.2.3.4:80")
        (fun _ => true) true).1.driverLog
        (⟨0, 0, some "1.2.3.4:80", 0, true⟩ : DriverInst).driverId
      = some (some "1.2.3.4:80")
    ∧ logLookup (poolRun (poolRun (mkPool 1)
          [.acquire (some "1.2.3.4:80") (fun _ => true) true])
          [.release 0 false (fun _ => true),
           .acquire (some "5.6.7.8:81") (fun _ => true) true]).driverLog 0
      = some (some "1.2.3.4:80") := by
  have h1 := (proxy_binding_immutable 1 [] (some "1.2.3.4:80") (fun _ => true) true).1
    ⟨0, 0, some "1.2.3.4:80", 0, true⟩ (by decide)
  have h2 := (proxy_binding_immutable 1
      [.acquire (some "1.2.3.4:80") (fun _ => true) true]
      (some "1.2.3.4:80") (fun _ => true) true).2 0 (some "1.2.3.4:80")
      [.release 0 false (fun _ => true),
       .acquire (some "5.6.7.8:81") (fun _ => true) true]
      (by decide)
  exact ⟨h1.1, h1.2, h2⟩

theorem return_driver_error3 (s : PoolState) (instId : Nat) (hadError : Bool)
    (h2 : Nat → Bool) (inst : DriverInst)
    (hf : s.active.find? (fun i => i.instId == instId) = some inst)
    (he : 3 ≤ inst.errorCount + (if hadError then 1 else 0)) :
    (return_driver s instId hadError h2).available = s.available
    ∧ (∀ j ∈ (return_driver s instId hadError h2).active, (j.instId == instId) = false)
    ∧ inst.driverId ∈ (return_driver s instId hadError h2).destroyed := by
  simp only [return_driver]
  split
  · rename_i hnone
    exact absurd (hf.symm.trans hnone) (by simp)
  · rename_i inst2 hf2
    have hinst : inst = inst2 := Option.some.inj (hf.symm.trans hf2)
    subst hinst
    rw [if_pos he]
    refine ⟨rfl, ?_, List.mem_cons_self _ _⟩
    intro j hj
    have := List.of_mem_filter hj
    simpa using this

/-- C7: error-threshold eviction, over every state reachable from an empty
pool.  (i) `get_driver` only hands out instances with fewer than three
errors, and never a destroyed driver; (ii) a release that brings
`error_count` to three (or more) destroys the instance: the available
queue is left untouched, the instance is dropped from the active set, and
its driver id is recorded destroyed; (iii) a driver id once destroyed is
never handed out by any later acquire. -/
theorem error_threshold_eviction :
    ∀ (n : Nat) (evs : List PoolEvent),
      (∀ p h c inst,
          (get_driver (poolRun (mkPool n) evs) p h c).2 = some inst →
          inst.errorCount < 3 ∧ inst.driverId ∉ (poolRun (mkPool n) evs).destroyed)
      ∧ (∀ instId hadError h inst,
          (poolRun (mkPool n) evs).active.find? (fun i => i.instId == instId)
            = some inst →
          3 ≤ inst.errorCount + (if hadError then 1 else 0) →
          (return_driver (poolRun (mkPool n) evs) instId hadError h).available
            = (poolRun (mkPool n) evs).available
          ∧ (∀ j ∈ (return_driver (poolRun (mkPool n) evs) instId hadError h).active,
              (j.instId == instId) = false)
          ∧ inst.driverId ∈
              (return_driver (poolRun (mkPool n) evs) instId hadError h).destroyed)
      ∧ (∀ d, d ∈ (poolRun (mkPool n) evs).destroyed →
          ∀ evs2 p h c inst,
            (get_driver (poolRun (poolRun (mkPool n) evs) evs2) p h c).2 = some inst →
            inst.driverId ≠ d) := by
  intro n evs
  have hinv := poolRun_inv (mkPool n) evs (mkPool_inv n)
  refine ⟨?_, ?_, ?_⟩
  · intro p h c inst hinst
    have hspec := (get_driver_spec _ p h c hinv).2 inst hinst
    exact ⟨hspec.2.1, hspec.2.2.1⟩
  · intro instId hadError h inst hf he
    exact return_driver_error3 _ instId hadError h inst hf he
  · intro d hd evs2 p h c inst hinst
    have hinv2 := poolRun_inv _ evs2 hinv
    have hspec := (get_driver_spec _ p h c hinv2).2 inst hinst
    have hd2 := poolRun_destroyed_mono _ evs2 d hd
    intro heqd
    rw [heqd] at hspec
    exact hspec.2.2.1 hd2

/-- Witness for C7 along a concrete trace: an instance that errored twice
is still handed out (errors below three), the third errored release
destroys it without touching the queue, and a later acquire hands out a
fresh driver, not the destroyed one. -/
theorem error_threshold_eviction_witness :
    ((⟨0, 0, some "9.9.9.9:3128", 2, true⟩ : DriverInst).errorCount < 3
      ∧ (⟨0, 0, some "9.9.9.9:3128", 2, true⟩ : DriverInst).driverId ∉
          (poolRun (mkPool 2)
            [.acquire (some "9.9.9.9:3128") (fun _ => true) true,
             .release 0 true (fun _ => true),
             .acquire (some "9.9.9.9:3128") (fun _ => true) true,
             .release 0 true (fun _ => true)]).destroyed)
    ∧ ((return_driver (poolRun (mkPool 2)
          [.acquire (some "9.9.9.9:3128") (fun _ => true) true,
           .release 0 true (fun _ => true),
           .acquire (some "9.9.9.9:3128") (fun _ => true) true,
           .release 0 true (fun _ => true),
           .acquire (some "9.9.9.9:3128") (fun _ => true) true]) 0 true
            (fun _ => true)).available
        = (poolRun (mkPool 2)
            [.acquire (some "9.9.9.9:3128") (fun _ => true) true,
             .release 0 true (fun _ => true),
             .acquire (some "9.9.9.9:3128") (fun _ => true) true,
             .release 0 true (fun _ => true),
             .acquire (some "9.9.9.9:3128") (fun _ => true) true]).available
      ∧ (⟨0, 0, some "9.9.9.9:3128", 2, true⟩ : DriverInst).driverId ∈
          (return_driver (poolRun (mkPool 2)
            [.acquire (some "9.9.9.9:3128") (fun _ => true) true,
             .release 0 true (fun _ => true),
             .acquire (some "9.9.9.9:3128") (fun _ => true) true,
             .release 0 true (fun _ => true),
             .acquire (some "9.9.9.9:3128") (fun _ => true) true]) 0 true
              (fun _ => true)).destroyed)
    ∧ (⟨1, 1, some "9.9.9.9:3128", 0, true⟩ : DriverInst).driverId ≠ 0 := by
  have ha := (error_threshold_eviction 2
      [.acquire (some "9.9.9.9:3128") (fun _ => true) true,
       .release 0 true (fun _ => true),
       .acquire (some "9.9.9.9:3128") (fun _ => true) true,
       .release 0 true (fun _ => true)]).1
    (some "9.9.9.9:3128") (fun _ => true) true
    ⟨0, 0, some "9.9.9.9:3128", 2, true⟩ (by decide)
  have hb := (error_threshold_eviction 2
      [.acquire (some "9.9.9.9:3128") (fun _ => true) true,
       .release 0 true (fun _ => true),
       .acquire (some "9.9.9.9:3128") (fun _ => true) true,
       .release 0 true (fun _ => true),
       .acquire (some "9.9.9.9:3128") (fun _ => true) true]).2.1
    0 true (fun _ => true) ⟨0, 0, some "9.9.9.9:3128", 2, true⟩
    (by decide) (by decide)
  have hc := (error_threshold_eviction 2
      [.acquire (some "9.9.9.9:3128") (fun _ => true) true,
       .release 0 true (fun _ => true),
       .acquire (some "9.9.9.9:3128") (fun _ => true) true,
       .release 0 true (fun _ => true),
       .acquire (some "9.9.9.9:3128") (fun _ => true) true,
       .release 0 true (fun _ => true)]).2.2
    0 (by decide) [] (some "9.9.9.9:3128") (fun _ => true) true
    ⟨1, 1, some "9.9.9.9:3128", 0, true⟩ (by decide)
  exact ⟨ha, ⟨hb.1, hb.2.2⟩, hc⟩

end ProxyServer
